import Mathlib

/-!
# Verification of the PyScheduler LTE downlink scheduler

A shallow embedding, in Lean 4, of the per-TTI scheduling pipeline of the
`project_py_scheduler` repository: the BS-owned downlink buffer
(`PyScheduler/BS_MODULE.py`), the LTE resource grid
(`PyScheduler/RES_GRID.py`), the AMC table and the three scheduling policies
(`PyScheduler/SCHEDULER.py`), and the Jain fairness aggregation
(`PyScheduler/ENVIRONMENT.py`).

Modelling conventions:
* Python `int`s become `Nat`/`Int` (byte sizes are `Nat`, counters that the
  source decrements are `Int`, times are `Int`).
* Python `float` arithmetic (EMA averages, PF metrics, Jain index, AMC code
  rates) is modelled over `ℚ` with exact arithmetic.  The AMC code-rate table
  is carried as permille integers, so `int(84 * M * R)` becomes exact natural
  division `84 * M * r / 1000`; none of the fifteen products lies within
  float rounding error of an integer, so the two agree on every CQI.
* Python dicts whose value set is summed or whose key set matters are
  association lists (`List (Nat × β)`, first binding wins); dicts used purely
  pointwise are functions with a default.
* A Python method that can raise becomes a function into `Option`
  (`none` = an uncaught exception propagates); methods that cannot raise are
  total functions.
* Grid methods that the schedulers call but that are absent from the
  repository snapshot (`GET_RBG_SIZE`, `GET_RBG_INDICES`, `ALLOCATE_RBG`,
  `GENERATE_BITMAP`) and the UE method `UPD_DL_THROUGHPUT` are modelled from
  the specification; each such definition carries a doc comment starting
  with `Modelled from the spec:`.
-/

/-! ## Association-list dictionaries -/

/-- Lookup of the first binding of key `k` (Python dict lookup). -/
def alookup {β : Type} : List (Nat × β) → Nat → Option β
  | [], _ => none
  | (k', v) :: t, k => if k' = k then some v else alookup t k

/-- `d[k] = v`: replace the first binding of `k`, or append a new one
(Python dicts keep insertion order and update in place). -/
def aset {β : Type} : List (Nat × β) → Nat → β → List (Nat × β)
  | [], k, v => [(k, v)]
  | (k', v') :: t, k, v =>
    if k' = k then (k, v) :: t else (k', v') :: aset t k v

/-- `del d[k]`: drop every binding of `k`. -/
def aerase {β : Type} (l : List (Nat × β)) (k : Nat) : List (Nat × β) :=
  l.filter (fun kv => kv.1 ≠ k)

/-- `sum(d.values())` for an integer-valued dict. -/
def asum (l : List (Nat × Int)) : Int :=
  l.foldr (fun kv a => kv.2 + a) 0

theorem alookup_aset_self {β : Type} (l : List (Nat × β)) (k : Nat) (v : β) :
    alookup (aset l k v) k = some v := by
  induction l with
  | nil => simp [aset, alookup]
  | cons h t ih =>
    by_cases hk : h.1 = k <;> simp [aset, alookup, hk, ih]

theorem alookup_aset_ne {β : Type} (l : List (Nat × β)) (k k' : Nat) (v : β)
    (h : k ≠ k') : alookup (aset l k v) k' = alookup l k' := by
  induction l with
  | nil => simp [aset, alookup, h]
  | cons hd t ih =>
    by_cases hk : hd.1 = k <;> by_cases hk' : hd.1 = k' <;>
      simp_all [aset, alookup]

theorem alookup_aerase_self {β : Type} (l : List (Nat × β)) (k : Nat) :
    alookup (aerase l k) k = none := by
  induction l with
  | nil => simp [aerase, alookup]
  | cons hd t ih =>
    by_cases hk : hd.1 = k <;> simp_all [aerase, alookup, List.filter]

theorem alookup_aerase_ne {β : Type} (l : List (Nat × β)) (k k' : Nat)
    (h : k ≠ k') : alookup (aerase l k) k' = alookup l k' := by
  induction l with
  | nil => simp [aerase, alookup]
  | cons hd t ih =>
    by_cases hk : hd.1 = k
    · subst hk; simp_all [aerase, alookup, List.filter, Ne.symm h]
    · by_cases hk' : hd.1 = k' <;> simp_all [aerase, alookup, List.filter]

/-! ## Packets and the BS-owned downlink buffer (`BS_MODULE.py`) -/

/-- `BS_MODULE.Packet`. -/
structure Packet where
  size : Nat
  ue_id : Nat
  creation_time : Int
  priority : Nat := 0
  ttl_ms : Int := 1000
  is_fragment : Bool := false
deriving Repr, DecidableEq

/-- `BS_MODULE.Buffer`.  `queues` is a `defaultdict(deque)` read pointwise, so
it is a function with default `[]`; `sizes` is a `defaultdict(int)` whose
value set is summed by `ADD_PACKET`, so it is an association list.
Pure telemetry that no claim observes (`dropped_info` payloads,
`ingress_stats`) is omitted; the admission-reject reason is returned by
`ADD_PACKET` itself instead of being appended to `dropped_info`. -/
structure Buffer where
  global_max : Int := 1048576
  per_ue_max : Int := 262144
  total_size : Int := 0
  queues : Nat → List Packet
  sizes : List (Nat × Int) := []
  dropped : Nat → Nat
  expired : Nat → Nat

/-- A freshly constructed `Buffer(global_max, per_ue_max)` (the constructor's
`per_ue_max > global_max` check is the caller's precondition). -/
def Buffer.init (g p : Int) : Buffer :=
  { global_max := g, per_ue_max := p, queues := fun _ => [],
    dropped := fun _ => 0, expired := fun _ => 0 }

/-- The TTL filter used by all three buffer methods: keep packets with
`current_time - p.creation_time <= p.ttl_ms`. -/
def ttlKeep (now : Int) (q : List Packet) : List Packet :=
  q.filter (fun p => now - p.creation_time ≤ p.ttl_ms)

/-- Byte total of a packet list. -/
def qsize (q : List Packet) : Int :=
  q.foldr (fun p a => (p.size : Int) + a) 0

/-- Admission-reject reasons of `Buffer.ADD_PACKET`. -/
inductive RejectReason where
  | ue_limit
  | global_limit
deriving Repr, DecidableEq

/-- `Buffer.ADD_PACKET(packet, current_time)`: TTL sweep of the target queue
(recomputing `sizes[ue]` and `total_size`), then the per-UE cap, then the
global cap, then append.  Returns the new buffer and `none` when admitted
(Python `True`), or the reject reason (Python `False` plus the
`dropped_info` entry). -/
def ADD_PACKET (b : Buffer) (pkt : Packet) (now : Int) :
    Buffer × Option RejectReason :=
  -- step 1: drop expired packets of this UE, refresh sizes and total_size
  let valid := ttlKeep now (b.queues pkt.ue_id)
  let expired_count := (b.queues pkt.ue_id).length - valid.length
  let queues1 := fun u => if u = pkt.ue_id then valid else b.queues u
  let sizes1 := aset b.sizes pkt.ue_id (qsize valid)
  let total1 := asum sizes1
  let b1 : Buffer :=
    { b with queues := queues1, sizes := sizes1, total_size := total1,
             expired := fun u =>
               if u = pkt.ue_id then b.expired u + expired_count
               else b.expired u }
  -- step 2: per-UE cap first, then the global cap
  let current_ue_size := qsize valid
  if current_ue_size + (pkt.size : Int) > b.per_ue_max then
    ({ b1 with dropped := fun u =>
         if u = pkt.ue_id then b.dropped u + 1 else b.dropped u },
     some .ue_limit)
  else if total1 + (pkt.size : Int) > b.global_max then
    ({ b1 with dropped := fun u =>
         if u = pkt.ue_id then b.dropped u + 1 else b.dropped u },
     some .global_limit)
  else
    -- steps 3-4: append and grow the byte accounting
    ({ b1 with
        queues := fun u => if u = pkt.ue_id then valid ++ [pkt] else b.queues u,
        sizes := aset sizes1 pkt.ue_id (qsize valid + (pkt.size : Int)),
        total_size := total1 + (pkt.size : Int) },
     none)

/-- Running state of the extraction loop of `Buffer.GET_PACKETS`:
the packets/fragments selected so far, the accumulated `total_bits` and
`extracted_size` counters of the source, and the queue left behind. -/
structure ExtractResult where
  selected : List Packet
  total_bits : Nat
  extracted_size : Nat
  rest : List Packet
deriving Repr, DecidableEq

/-- The extraction loop of `Buffer.GET_PACKETS`: walk the (already swept)
queue while `total_bits < max_bits`; pop whole packets that fit, split the
first that does not (the fragment inherits the metadata, the residual head
packet shrinks and has its `creation_time` refreshed to `now`), then stop. -/
def extractLoop (now : Int) (maxBits : Nat) :
    List Packet → Nat → ExtractResult
  | [], tb => ⟨[], tb, 0, []⟩
  | p :: rest, tb =>
    if tb < maxBits then
      if tb + p.size * 8 ≤ maxBits then
        let r := extractLoop now maxBits rest (tb + p.size * 8)
        ⟨p :: r.selected, r.total_bits, p.size + r.extracted_size, r.rest⟩
      else
        let fs := (maxBits - tb) / 8
        let frag : Packet :=
          { size := fs, ue_id := p.ue_id, creation_time := p.creation_time,
            priority := p.priority, ttl_ms := p.ttl_ms, is_fragment := true }
        let residual : Packet := { p with size := p.size - fs,
                                          creation_time := now }
        ⟨[frag], tb + fs * 8, fs, residual :: rest⟩
    else ⟨[], tb, 0, p :: rest⟩

/-- `Buffer.GET_PACKETS(ue_id, max_bytes, bits_per_rb, current_time)`.
Note that the opening TTL sweep replaces `queues[ue_id]` WITHOUT touching
`sizes[ue_id]`, `total_size` or `expired[ue_id]` (unlike the sweeps in
`ADD_PACKET` and `UPD_UE_BUFFER`); afterwards only `extracted_size` is
subtracted.  `bits_per_rb` is accepted and ignored, as in the source.
Returns `(buffer, selected packets, exact_bytes = total_bits // 8)`. -/
def GET_PACKETS (b : Buffer) (ue_id : Nat) (max_bytes : Nat)
    (_bits_per_rb : Nat) (now : Int) : Buffer × List Packet × Nat :=
  let swept := ttlKeep now (b.queues ue_id)
  let r := extractLoop now (max_bytes * 8) swept 0
  let exact_bytes := r.total_bits / 8
  ({ b with
      queues := fun u => if u = ue_id then r.rest else b.queues u,
      sizes := aset b.sizes ue_id
        ((alookup b.sizes ue_id).getD 0 - (r.extracted_size : Int)),
      total_size := b.total_size - (r.extracted_size : Int) },
   r.selected, exact_bytes)

/-- `Buffer.UPD_UE_BUFFER(ue_id, current_time)`: TTL sweep that DOES refresh
`sizes[ue_id]` and the expiry counter (kept for contrast with the sweep
inside `GET_PACKETS`; note its strict `>= ttl` comparison).  Returns the
buffer and the number of expired packets. -/
def UPD_UE_BUFFER (b : Buffer) (ue_id : Nat) (now : Int) : Buffer × Nat :=
  let valid := (b.queues ue_id).filter
    (fun p => ¬ (now - p.creation_time ≥ p.ttl_ms))
  let expired_count := (b.queues ue_id).length - valid.length
  ({ b with
      queues := fun u => if u = ue_id then valid else b.queues u,
      sizes := aset b.sizes ue_id (qsize valid),
      expired := fun u =>
        if u = ue_id then b.expired u + expired_count else b.expired u },
   expired_count)

theorem qsize_append (q₁ q₂ : List Packet) :
    qsize (q₁ ++ q₂) = qsize q₁ + qsize q₂ := by
  induction q₁ with
  | nil => simp [qsize]
  | cons p t ih => simp [qsize] at ih ⊢; omega

/-! ### C1: byte conservation in `GET_PACKETS` -/

/-- A buffer holding, for UE 1, a single 100-byte packet whose TTL (10 ms)
has long expired by time 2000, with `sizes[1] = 100` and `total_size = 100`
consistent with the queue. -/
def staleBuf : Buffer :=
  { Buffer.init 1048576 262144 with
      queues := fun u =>
        if u = 1 then
          [{ size := 100, ue_id := 1, creation_time := 0, ttl_ms := 10 }]
        else [],
      sizes := [(1, 100)],
      total_size := 100 }

/-- C1, failing input.  The spec asserts that after any `GET_PACKETS` call
`sizes[ue]` again equals the sum of the sizes of the packets remaining in
queue `ue`, "including calls in which TTL-expired packets are removed at the
start of the call".  On `staleBuf`, `GET_PACKETS(1, 50, 327, 2000)` removes
the expired packet from the queue during its opening TTL sweep but leaves
`sizes[1]` untouched: the call returns no packets and 0 bytes, the queue
ends empty, yet `sizes[1]` and `total_size` still read 100 — the invariant
`sizes[ue] = Σ sizes of queue ue` is broken by exactly the expired bytes
(and the `expired` counter is not incremented either, unlike the sweeps of
`ADD_PACKET` and `UPD_UE_BUFFER`). -/
theorem C1_get_packets_stale_sizes :
    (GET_PACKETS staleBuf 1 50 327 2000).2.1 = [] ∧
    (GET_PACKETS staleBuf 1 50 327 2000).2.2 = 0 ∧
    (GET_PACKETS staleBuf 1 50 327 2000).1.queues 1 = [] ∧
    alookup (GET_PACKETS staleBuf 1 50 327 2000).1.sizes 1 = some 100 ∧
    (GET_PACKETS staleBuf 1 50 327 2000).1.total_size = 100 ∧
    qsize ((GET_PACKETS staleBuf 1 50 327 2000).1.queues 1) ≠
      (100 : Int) ∧
    (GET_PACKETS staleBuf 1 50 327 2000).1.expired 1 = 0 := by
  refine ⟨rfl, rfl, by decide, by decide, by decide, by decide, rfl⟩

/-! ### C8: admission control order and softness in `ADD_PACKET` -/

/-- C8: `ADD_PACKET` is a total function (the source method has no raise
path), and after its TTL sweep of the target queue it (i) rejects with
reason `ue_limit` and increments `dropped[ue]` when the post-sweep
`sizes[ue] + pkt.size` exceeds `per_ue_max`, leaving the queue exactly in
its post-sweep state, (ii) otherwise rejects with reason `global_limit`
(same bookkeeping) when the post-sweep `total_size + pkt.size` exceeds
`global_max` — so the per-UE cap is checked strictly before the global
cap — and (iii) otherwise appends the packet; in every case `sizes[ue]`
ends equal to the byte sum of queue `ue`, and other queues are untouched. -/
theorem C8_add_packet_admission (b : Buffer) (pkt : Packet) (now : Int) :
    (qsize (ttlKeep now (b.queues pkt.ue_id)) + (pkt.size : Int) >
        b.per_ue_max →
      (ADD_PACKET b pkt now).2 = some .ue_limit ∧
      (ADD_PACKET b pkt now).1.queues pkt.ue_id =
        ttlKeep now (b.queues pkt.ue_id) ∧
      (ADD_PACKET b pkt now).1.dropped pkt.ue_id = b.dropped pkt.ue_id + 1) ∧
    (qsize (ttlKeep now (b.queues pkt.ue_id)) + (pkt.size : Int) ≤
        b.per_ue_max →
     asum (aset b.sizes pkt.ue_id (qsize (ttlKeep now (b.queues pkt.ue_id))))
        + (pkt.size : Int) > b.global_max →
      (ADD_PACKET b pkt now).2 = some .global_limit ∧
      (ADD_PACKET b pkt now).1.queues pkt.ue_id =
        ttlKeep now (b.queues pkt.ue_id) ∧
      (ADD_PACKET b pkt now).1.dropped pkt.ue_id = b.dropped pkt.ue_id + 1) ∧
    (qsize (ttlKeep now (b.queues pkt.ue_id)) + (pkt.size : Int) ≤
        b.per_ue_max →
     asum (aset b.sizes pkt.ue_id (qsize (ttlKeep now (b.queues pkt.ue_id))))
        + (pkt.size : Int) ≤ b.global_max →
      (ADD_PACKET b pkt now).2 = none ∧
      (ADD_PACKET b pkt now).1.queues pkt.ue_id =
        ttlKeep now (b.queues pkt.ue_id) ++ [pkt] ∧
      (ADD_PACKET b pkt now).1.total_size =
        asum (aset b.sizes pkt.ue_id
          (qsize (ttlKeep now (b.queues pkt.ue_id)))) + (pkt.size : Int) ∧
      (ADD_PACKET b pkt now).1.dropped pkt.ue_id = b.dropped pkt.ue_id) ∧
    (alookup (ADD_PACKET b pkt now).1.sizes pkt.ue_id =
      some (qsize ((ADD_PACKET b pkt now).1.queues pkt.ue_id))) ∧
    (∀ u, u ≠ pkt.ue_id →
      (ADD_PACKET b pkt now).1.queues u = b.queues u) := by
  by_cases h1 : qsize (ttlKeep now (b.queues pkt.ue_id)) + (pkt.size : Int) >
      b.per_ue_max
  · refine ⟨fun _ => ?_, fun h => absurd h1 (by omega), fun h => absurd h1 (by omega), ?_, ?_⟩
    · simp [ADD_PACKET, h1]
    · simp [ADD_PACKET, h1, alookup_aset_self]
    · intro u hu; simp [ADD_PACKET, h1, hu]
  · by_cases h2 : asum (aset b.sizes pkt.ue_id
        (qsize (ttlKeep now (b.queues pkt.ue_id)))) + (pkt.size : Int) >
        b.global_max
    · refine ⟨fun h => absurd h (by omega), fun _ _ => ?_,
        fun _ h => absurd h2 (by omega), ?_, ?_⟩
      · simp [ADD_PACKET, h1, h2]
      · simp [ADD_PACKET, h1, h2, alookup_aset_self]
      · intro u hu; simp [ADD_PACKET, h1, h2, hu]
    · refine ⟨fun h => absurd h (by omega), fun _ h => absurd h (by omega),
        fun _ _ => ?_, ?_, ?_⟩
      · simp [ADD_PACKET, h1, h2]
      · have hq : qsize (ttlKeep now (b.queues pkt.ue_id) ++ [pkt]) =
            qsize (ttlKeep now (b.queues pkt.ue_id)) + (pkt.size : Int) := by
          rw [qsize_append]; simp [qsize]
        simp [ADD_PACKET, h1, h2, alookup_aset_self, hq]
      · intro u hu; simp [ADD_PACKET, h1, h2, hu]

/-- C8 witness: a concrete accepted packet and a concrete `ue_limit` reject,
both obtained from `C8_add_packet_admission`. -/
theorem C8_add_packet_admission_witness :
    ((ADD_PACKET (Buffer.init 1000 100)
        { size := 40, ue_id := 1, creation_time := 0 } 5).2 = none ∧
     (ADD_PACKET (Buffer.init 1000 100)
        { size := 40, ue_id := 1, creation_time := 0 } 5).1.queues 1 =
       [{ size := 40, ue_id := 1, creation_time := 0 }]) ∧
    (ADD_PACKET (Buffer.init 1000 100)
        { size := 200, ue_id := 2, creation_time := 0 } 5).2 =
      some .ue_limit := by
  refine ⟨?_, ?_⟩
  · have h := (C8_add_packet_admission (Buffer.init 1000 100)
      { size := 40, ue_id := 1, creation_time := 0 } 5).2.2.1
      (by decide) (by decide)
    exact ⟨h.1, by simpa using h.2.1⟩
  · exact ((C8_add_packet_admission (Buffer.init 1000 100)
      { size := 200, ue_id := 2, creation_time := 0 } 5).1 (by decide)).1

/-! ## The LTE resource grid (`RES_GRID.py`) -/

/-- The slot-identifier string `"sub_{sub}_slot_{slot}"` that keys `rb_map`.
`_init_rb_map` builds it from the WITHIN-FRAME subframe index (`tti % 10`),
while `ALLOCATE_RB_GROUP` formats it with the global TTI. -/
structure SlotId where
  sub : Nat
  slot : Nat
deriving Repr, DecidableEq

/-- `RES_GRID_LTE`: RB ownership (`owner t s f = some ue` models
`status == "assigned", UE_ID == ue`; `none` models a free RB — the source
keeps `status`/`UE_ID` in lock-step in `ASSIGN_RB`/`RELEASE_RB`), plus the
`stats` counters.  `allocation_by_tti` is a dict keyed by
`range(total_tti)`; membership tests against it become `t < total_tti`.
The float bandwidth keys are encoded injectively in tenths of MHz
(`1.4 → 14`, `20 → 200`), so the table dispatches stay computable. -/
structure Grid where
  bandwidth : Nat
  rb_per_slot : Nat
  total_tti : Nat
  owner : Nat → Nat → Nat → Option Nat
  allocated_rbs : Int
  allocation_by_user : List (Nat × Int)
  allocation_by_tti : Nat → Int

/-- `RES_GRID_LTE.BANDWIDTH_TO_RB` (MHz in tenths → RB per slot). -/
def BANDWIDTH_TO_RB (bw : Nat) : Option Nat :=
  if bw = 14 then some 6
  else if bw = 30 then some 15
  else if bw = 50 then some 25
  else if bw = 100 then some 50
  else if bw = 150 then some 75
  else if bw = 200 then some 100
  else none

/-- The grid state right after `RES_GRID_LTE.__init__` for a validated
bandwidth giving `rb_per_slot = n` and `num_frames` frames. -/
def gridInit (bw n num_frames : Nat) : Grid :=
  { bandwidth := bw, rb_per_slot := n, total_tti := num_frames * 10,
    owner := fun _ _ _ => none, allocated_rbs := 0,
    allocation_by_user := [], allocation_by_tti := fun _ => 0 }

/-- `RES_GRID_LTE(bandwidth, num_frames)`: `none` models the
`ValueError` (ConfigurationError) for a bandwidth outside the whitelist. -/
def mkGrid (bw : Nat) (num_frames : Nat) : Option Grid :=
  (BANDWIDTH_TO_RB bw).map (fun n => gridInit bw n num_frames)

/-- `RES_GRID_LTE.GET_RB(tti, slot_id, freq_idx)`: the `rb_map` holds the
key `(tti, slot_id, freq_idx)` exactly when `tti` is in range, `slot_id` is
the canonical string for that tti (subframe index `tti % 10`, slot 0 or 1)
and the frequency index is in range; `some st` is the RB with its owner,
`none` is Python `None`. -/
def GET_RB (g : Grid) (tti : Nat) (sid : SlotId) (f : Nat) :
    Option (Option Nat) :=
  if tti < g.total_tti ∧ sid.sub = tti % 10 ∧ sid.slot < 2 ∧
     f < g.rb_per_slot then
    some (g.owner tti sid.slot f)
  else none

/-- `RES_BLCK.ASSIGN_RB`/`RELEASE_RB` at one grid cell. -/
def setOwner (g : Grid) (tti s f : Nat) (v : Option Nat) : Grid :=
  { g with owner := fun t' s' f' =>
      if t' = tti ∧ s' = s ∧ f' = f then v else g.owner t' s' f' }

/-- `RES_GRID_LTE.ALLOCATE_RB(tti, slot_id, freq_idx, UE_ID)`: bounds
warning, lookup, assign if free, and on success bump `allocated_rbs`,
`allocation_by_user[UE_ID]` (defaulting to 0) and
`allocation_by_tti[tti]`. -/
def ALLOCATE_RB (g : Grid) (tti : Nat) (sid : SlotId) (f ue : Nat) :
    Grid × Bool :=
  if g.rb_per_slot ≤ f then (g, false)
  else
    match GET_RB g tti sid f with
    | some none =>
      ({ setOwner g tti sid.slot f (some ue) with
          allocated_rbs := g.allocated_rbs + 1,
          allocation_by_user := aset g.allocation_by_user ue
            ((alookup g.allocation_by_user ue).getD 0 + 1),
          allocation_by_tti := fun t =>
            if t = tti then g.allocation_by_tti t + 1
            else g.allocation_by_tti t },
       true)
    | _ => (g, false)

/-- `RES_GRID_LTE.RELEASE_RB(tti, slot_id, freq_idx)`: only an existing,
non-free RB is released; the releasing decrements `allocated_rbs`, deletes
the owner's entry from `allocation_by_user` when its count falls to ≤ 0
(else stores the decrement), and decrements `allocation_by_tti[tti]` when
`tti` is one of its keys. -/
def RELEASE_RB (g : Grid) (tti : Nat) (sid : SlotId) (f : Nat) :
    Grid × Bool :=
  match GET_RB g tti sid f with
  | some (some ue) =>
    let c := (alookup g.allocation_by_user ue).getD 0 - 1
    ({ setOwner g tti sid.slot f none with
        allocated_rbs := g.allocated_rbs - 1,
        allocation_by_user :=
          if c ≤ 0 then aerase g.allocation_by_user ue
          else aset g.allocation_by_user ue c,
        allocation_by_tti := fun t =>
          if t = tti ∧ tti < g.total_tti then g.allocation_by_tti t - 1
          else g.allocation_by_tti t },
     true)
  | _ => (g, false)

/-- `RES_GRID_LTE.ALLOCATE_RB_GROUP(tti, freq_idx, UE_ID)`: for the two
slot-id strings `"sub_{tti}_slot_0"`, `"sub_{tti}_slot_1"`, try
`ALLOCATE_RB`; whenever one FAILS, clear `success` and call `RELEASE_RB` on
that same (failed) slot. -/
def ALLOCATE_RB_GROUP (g : Grid) (tti : Nat) (f ue : Nat) : Grid × Bool :=
  [0, 1].foldl
    (fun acc s =>
      let sid : SlotId := ⟨tti, s⟩
      let r := ALLOCATE_RB acc.1 tti sid f ue
      if r.2 then (r.1, acc.2)
      else ((RELEASE_RB r.1 tti sid f).1, false))
    (g, true)

/-! ### Grid counting and the counter-consistency invariant -/

/-- Number of assigned RBs of slot `s` of TTI `t`. -/
def cntSlot (g : Grid) (t s : Nat) : Nat :=
  ∑ f in Finset.range g.rb_per_slot, if (g.owner t s f).isSome then 1 else 0

/-- Number of free RBs of slot `s` of TTI `t`. -/
def freeSlot (g : Grid) (t s : Nat) : Nat :=
  ∑ f in Finset.range g.rb_per_slot, if (g.owner t s f).isSome then 0 else 1

/-- Number of assigned RBs of TTI `t` (both slots). -/
def cntTTI (g : Grid) (t : Nat) : Nat := cntSlot g t 0 + cntSlot g t 1

/-- Number of free RBs of TTI `t` (both slots). -/
def freeTTI (g : Grid) (t : Nat) : Nat := freeSlot g t 0 + freeSlot g t 1

/-- Number of RBs of slot `s` of TTI `t` assigned to UE `u`. -/
def cntUserSlot (g : Grid) (u t s : Nat) : Nat :=
  ∑ f in Finset.range g.rb_per_slot, if g.owner t s f = some u then 1 else 0

/-- Number of RBs of the whole grid assigned to UE `u`. -/
def cntUser (g : Grid) (u : Nat) : Nat :=
  ∑ t in Finset.range g.total_tti, (cntUserSlot g u t 0 + cntUserSlot g u t 1)

/-- Number of assigned RBs of the whole grid. -/
def cntAll (g : Grid) : Nat :=
  ∑ t in Finset.range g.total_tti, cntTTI g t

/-- Consistency of the `stats` counters with the actual RB states:
`allocated_rbs` counts all assigned RBs, `allocation_by_tti[t]` counts the
assigned RBs of TTI `t`, and `allocation_by_user` has an entry for `u`
exactly when `u` owns at least one RB, holding that count. -/
def GridInv (g : Grid) : Prop :=
  g.allocated_rbs = (cntAll g : Int) ∧
  (∀ t, t < g.total_tti → g.allocation_by_tti t = (cntTTI g t : Int)) ∧
  (∀ u, alookup g.allocation_by_user u =
    (if cntUser g u = 0 then none else some (cntUser g u : Int)))

theorem sum_range_succ_at {N f : Nat} (hf : f < N) (F G : Nat → Nat)
    (hne : ∀ x, x ≠ f → F x = G x) (hF : F f = G f + 1) :
    ∑ x in Finset.range N, F x = (∑ x in Finset.range N, G x) + 1 := by
  have hmem : f ∈ Finset.range N := Finset.mem_range.mpr hf
  have h1 := Finset.add_sum_erase (Finset.range N) F hmem
  have h2 := Finset.add_sum_erase (Finset.range N) G hmem
  have h3 : ∑ x in (Finset.range N).erase f, F x =
      ∑ x in (Finset.range N).erase f, G x :=
    Finset.sum_congr rfl (fun x hx => hne x (Finset.ne_of_mem_erase hx))
  omega

theorem sum_range_pred_at {N f : Nat} (hf : f < N) (F G : Nat → Nat)
    (hne : ∀ x, x ≠ f → F x = G x) (hF : F f + 1 = G f) :
    (∑ x in Finset.range N, F x) + 1 = ∑ x in Finset.range N, G x := by
  have hmem : f ∈ Finset.range N := Finset.mem_range.mpr hf
  have h1 := Finset.add_sum_erase (Finset.range N) F hmem
  have h2 := Finset.add_sum_erase (Finset.range N) G hmem
  have h3 : ∑ x in (Finset.range N).erase f, F x =
      ∑ x in (Finset.range N).erase f, G x :=
    Finset.sum_congr rfl (fun x hx => hne x (Finset.ne_of_mem_erase hx))
  omega

/-- Grid conservation holds structurally for EVERY grid state: each RB is
either assigned or free, so per TTI the two counts total `2·N_rb_per_slot`. -/
theorem cntTTI_add_freeTTI (g : Grid) (t : Nat) :
    cntTTI g t + freeTTI g t = 2 * g.rb_per_slot := by
  have h : ∀ s, cntSlot g t s + freeSlot g t s = g.rb_per_slot := by
    intro s
    rw [cntSlot, freeSlot, ← Finset.sum_add_distrib]
    have : ∀ f ∈ Finset.range g.rb_per_slot,
        ((if (g.owner t s f).isSome then 1 else 0) +
         (if (g.owner t s f).isSome then 0 else 1)) = 1 := by
      intro f _; by_cases hc : (g.owner t s f).isSome <;> simp [hc]
    rw [Finset.sum_congr rfl this, Finset.sum_const, Finset.card_range,
        smul_eq_mul, mul_one]
  rw [cntTTI, freeTTI]
  have h0 := h 0; have h1 := h 1
  omega

theorem cntSlot_setOwner_of_ne (g : Grid) {tti s f : Nat} (v : Option Nat)
    (t' s' : Nat) (h : ¬(t' = tti ∧ s' = s)) :
    cntSlot (setOwner g tti s f v) t' s' = cntSlot g t' s' := by
  refine Finset.sum_congr rfl (fun x _ => ?_)
  have : ¬(t' = tti ∧ s' = s ∧ x = f) := by tauto
  simp [setOwner, this]

theorem cntUserSlot_setOwner_of_ne (g : Grid) {tti s f : Nat} (v : Option Nat)
    (u t' s' : Nat) (h : ¬(t' = tti ∧ s' = s)) :
    cntUserSlot (setOwner g tti s f v) u t' s' = cntUserSlot g u t' s' := by
  refine Finset.sum_congr rfl (fun x _ => ?_)
  have : ¬(t' = tti ∧ s' = s ∧ x = f) := by tauto
  simp [setOwner, this]

theorem cntSlot_setOwner_assign (g : Grid) {tti s f : Nat} (ue : Nat)
    (hf : f < g.rb_per_slot) (hfree : g.owner tti s f = none) :
    cntSlot (setOwner g tti s f (some ue)) tti s = cntSlot g tti s + 1 := by
  refine sum_range_succ_at hf _ _ (fun x hx => ?_) ?_
  · simp [setOwner, hx]
  · simp [setOwner, hfree]

theorem cntUserSlot_setOwner_assign_self (g : Grid) {tti s f : Nat} (ue : Nat)
    (hf : f < g.rb_per_slot) (hfree : g.owner tti s f = none) :
    cntUserSlot (setOwner g tti s f (some ue)) ue tti s =
      cntUserSlot g ue tti s + 1 := by
  refine sum_range_succ_at hf _ _ (fun x hx => ?_) ?_
  · simp [setOwner, hx]
  · simp [setOwner, hfree]

theorem cntUserSlot_setOwner_assign_other (g : Grid) {tti s f : Nat}
    (ue u : Nat) (hfree : g.owner tti s f = none) (hu : u ≠ ue) :
    cntUserSlot (setOwner g tti s f (some ue)) u tti s =
      cntUserSlot g u tti s := by
  refine Finset.sum_congr rfl (fun x _ => ?_)
  by_cases hx : x = f
  · subst hx; simp [setOwner, hfree, Ne.symm hu]
  · simp [setOwner, hx]

theorem cntSlot_setOwner_release (g : Grid) {tti s f : Nat} {w : Nat}
    (hf : f < g.rb_per_slot) (hw : g.owner tti s f = some w) :
    cntSlot (setOwner g tti s f none) tti s + 1 = cntSlot g tti s := by
  refine sum_range_pred_at hf _ _ (fun x hx => ?_) ?_
  · simp [setOwner, hx]
  · simp [setOwner, hw]

theorem cntUserSlot_setOwner_release_self (g : Grid) {tti s f : Nat}
    {w : Nat} (hf : f < g.rb_per_slot) (hw : g.owner tti s f = some w) :
    cntUserSlot (setOwner g tti s f none) w tti s + 1 =
      cntUserSlot g w tti s := by
  refine sum_range_pred_at hf _ _ (fun x hx => ?_) ?_
  · simp [setOwner, hx]
  · simp [setOwner, hw]

theorem cntUserSlot_setOwner_release_other (g : Grid) {tti s f : Nat}
    {w : Nat} (u : Nat) (hw : g.owner tti s f = some w) (hu : u ≠ w) :
    cntUserSlot (setOwner g tti s f none) u tti s =
      cntUserSlot g u tti s := by
  refine Finset.sum_congr rfl (fun x _ => ?_)
  by_cases hx : x = f
  · subst hx; simp [setOwner, hw, Ne.symm hu]
  · simp [setOwner, hx]

theorem cntTTI_setOwner_assign (g : Grid) {tti s f : Nat} (ue : Nat)
    (hs : s < 2) (hf : f < g.rb_per_slot) (hfree : g.owner tti s f = none) :
    ∀ t', cntTTI (setOwner g tti s f (some ue)) t' =
      cntTTI g t' + (if t' = tti then 1 else 0) := by
  intro t'
  by_cases ht : t' = tti
  · subst ht
    interval_cases s
    · rw [cntTTI, cntTTI, cntSlot_setOwner_assign g ue hf hfree,
          cntSlot_setOwner_of_ne g _ t' 1 (by omega)]
      simp; omega
    · rw [cntTTI, cntTTI, cntSlot_setOwner_assign g ue hf hfree,
          cntSlot_setOwner_of_ne g _ t' 0 (by omega)]
      simp; omega
  · rw [cntTTI, cntTTI, cntSlot_setOwner_of_ne g _ t' 0 (by tauto),
        cntSlot_setOwner_of_ne g _ t' 1 (by tauto)]
    simp [ht]

theorem cntTTI_setOwner_release (g : Grid) {tti s f : Nat} {w : Nat}
    (hs : s < 2) (hf : f < g.rb_per_slot) (hw : g.owner tti s f = some w) :
    ∀ t', cntTTI (setOwner g tti s f none) t' +
      (if t' = tti then 1 else 0) = cntTTI g t' := by
  intro t'
  by_cases ht : t' = tti
  · subst ht
    interval_cases s
    · have h1 := cntSlot_setOwner_release g hf hw
      have h2 := @cntSlot_setOwner_of_ne g t' 0 f none t' 1 (by omega)
      rw [cntTTI, cntTTI]; simp at h2 ⊢; omega
    · have h1 := cntSlot_setOwner_release g hf hw
      have h2 := @cntSlot_setOwner_of_ne g t' 1 f none t' 0 (by omega)
      rw [cntTTI, cntTTI]; simp at h2 ⊢; omega
  · rw [cntTTI, cntTTI, cntSlot_setOwner_of_ne g _ t' 0 (by tauto),
        cntSlot_setOwner_of_ne g _ t' 1 (by tauto)]
    simp [ht]

theorem cntUser_setOwner_assign_self (g : Grid) {tti s f : Nat} (ue : Nat)
    (htti : tti < g.total_tti) (hs : s < 2) (hf : f < g.rb_per_slot)
    (hfree : g.owner tti s f = none) :
    cntUser (setOwner g tti s f (some ue)) ue = cntUser g ue + 1 := by
  refine sum_range_succ_at htti _ _ (fun t ht => ?_) ?_
  · rw [cntUserSlot_setOwner_of_ne g _ ue t 0 (by tauto),
        cntUserSlot_setOwner_of_ne g _ ue t 1 (by tauto)]
  · interval_cases s
    · rw [cntUserSlot_setOwner_assign_self g ue hf hfree,
          cntUserSlot_setOwner_of_ne g _ ue tti 1 (by omega)]
      omega
    · rw [cntUserSlot_setOwner_assign_self g ue hf hfree,
          cntUserSlot_setOwner_of_ne g _ ue tti 0 (by omega)]
      omega

theorem cntUser_setOwner_assign_other (g : Grid) {tti s f : Nat}
    (ue u : Nat) (hs : s < 2) (hfree : g.owner tti s f = none)
    (hu : u ≠ ue) :
    cntUser (setOwner g tti s f (some ue)) u = cntUser g u := by
  refine Finset.sum_congr rfl (fun t _ => ?_)
  by_cases ht : t = tti
  · subst ht
    interval_cases s
    · rw [cntUserSlot_setOwner_assign_other g ue u hfree hu,
          cntUserSlot_setOwner_of_ne g _ u t 1 (by omega)]
    · rw [cntUserSlot_setOwner_assign_other g ue u hfree hu,
          cntUserSlot_setOwner_of_ne g _ u t 0 (by omega)]
  · rw [cntUserSlot_setOwner_of_ne g _ u t 0 (by tauto),
        cntUserSlot_setOwner_of_ne g _ u t 1 (by tauto)]

theorem cntUser_setOwner_release_self (g : Grid) {tti s f : Nat} {w : Nat}
    (htti : tti < g.total_tti) (hs : s < 2) (hf : f < g.rb_per_slot)
    (hw : g.owner tti s f = some w) :
    cntUser (setOwner g tti s f none) w + 1 = cntUser g w := by
  refine sum_range_pred_at htti _ _ (fun t ht => ?_) ?_
  · rw [cntUserSlot_setOwner_of_ne g _ w t 0 (by tauto),
        cntUserSlot_setOwner_of_ne g _ w t 1 (by tauto)]
  · interval_cases s
    · have h1 := cntUserSlot_setOwner_release_self g hf hw
      have h2 := @cntUserSlot_setOwner_of_ne g tti 0 f none w tti 1 (by omega)
      omega
    · have h1 := cntUserSlot_setOwner_release_self g hf hw
      have h2 := @cntUserSlot_setOwner_of_ne g tti 1 f none w tti 0 (by omega)
      omega

theorem cntUser_setOwner_release_other (g : Grid) {tti s f : Nat} {w : Nat}
    (u : Nat) (hs : s < 2) (hw : g.owner tti s f = some w) (hu : u ≠ w) :
    cntUser (setOwner g tti s f none) u = cntUser g u := by
  refine Finset.sum_congr rfl (fun t _ => ?_)
  by_cases ht : t = tti
  · subst ht
    interval_cases s
    · rw [cntUserSlot_setOwner_release_other g u hw hu,
          cntUserSlot_setOwner_of_ne g _ u t 1 (by omega)]
    · rw [cntUserSlot_setOwner_release_other g u hw hu,
          cntUserSlot_setOwner_of_ne g _ u t 0 (by omega)]
  · rw [cntUserSlot_setOwner_of_ne g _ u t 0 (by tauto),
        cntUserSlot_setOwner_of_ne g _ u t 1 (by tauto)]

theorem cntAll_setOwner_assign (g : Grid) {tti s f : Nat} (ue : Nat)
    (htti : tti < g.total_tti) (hs : s < 2) (hf : f < g.rb_per_slot)
    (hfree : g.owner tti s f = none) :
    cntAll (setOwner g tti s f (some ue)) = cntAll g + 1 := by
  refine sum_range_succ_at htti _ _ (fun t ht => ?_) ?_
  · rw [cntTTI_setOwner_assign g ue hs hf hfree t]; simp [ht]
  · rw [cntTTI_setOwner_assign g ue hs hf hfree tti]; simp

theorem cntAll_setOwner_release (g : Grid) {tti s f : Nat} {w : Nat}
    (htti : tti < g.total_tti) (hs : s < 2) (hf : f < g.rb_per_slot)
    (hw : g.owner tti s f = some w) :
    cntAll (setOwner g tti s f none) + 1 = cntAll g := by
  refine sum_range_pred_at htti _ _ (fun t ht => ?_) ?_
  · have := cntTTI_setOwner_release g hs hf hw t; simp [ht] at this; omega
  · have := cntTTI_setOwner_release g hs hf hw tti; simp at this; omega

theorem cntUser_pos (g : Grid) {tti s f w : Nat} (htti : tti < g.total_tti)
    (hs : s < 2) (hf : f < g.rb_per_slot)
    (hw : g.owner tti s f = some w) : 1 ≤ cntUser g w := by
  have h1 : 1 ≤ cntUserSlot g w tti s := by
    rw [cntUserSlot]
    have h := Finset.single_le_sum
      (f := fun x => if g.owner tti s x = some w then 1 else 0)
      (fun i _ => Nat.zero_le _) (Finset.mem_range.mpr hf)
    simpa [hw] using h
  have h2 : cntUserSlot g w tti s ≤
      cntUserSlot g w tti 0 + cntUserSlot g w tti 1 := by
    interval_cases s <;> omega
  have h3 : cntUserSlot g w tti 0 + cntUserSlot g w tti 1 ≤ cntUser g w := by
    rw [cntUser]
    exact Finset.single_le_sum
      (f := fun t => cntUserSlot g w t 0 + cntUserSlot g w t 1)
      (fun i _ => Nat.zero_le _) (Finset.mem_range.mpr htti)
  omega

theorem cntAll_congr {g₁ g₂ : Grid} (hN : g₁.rb_per_slot = g₂.rb_per_slot)
    (hT : g₁.total_tti = g₂.total_tti) (hO : g₁.owner = g₂.owner) :
    cntAll g₁ = cntAll g₂ := by
  simp only [cntAll, cntTTI, cntSlot, hN, hT, hO]

theorem cntTTI_congr {g₁ g₂ : Grid} (hN : g₁.rb_per_slot = g₂.rb_per_slot)
    (hO : g₁.owner = g₂.owner) : ∀ t, cntTTI g₁ t = cntTTI g₂ t := by
  intro t; simp only [cntTTI, cntSlot, hN, hO]

theorem cntUser_congr {g₁ g₂ : Grid} (hN : g₁.rb_per_slot = g₂.rb_per_slot)
    (hT : g₁.total_tti = g₂.total_tti) (hO : g₁.owner = g₂.owner) :
    ∀ u, cntUser g₁ u = cntUser g₂ u := by
  intro u; simp only [cntUser, cntUserSlot, hN, hT, hO]

theorem cntAll_update (g : Grid) (a : Int) (bu : List (Nat × Int))
    (bt : Nat → Int) :
    cntAll { g with allocated_rbs := a, allocation_by_user := bu,
                    allocation_by_tti := bt } = cntAll g :=
  cntAll_congr rfl rfl rfl

theorem cntTTI_update (g : Grid) (a : Int) (bu : List (Nat × Int))
    (bt : Nat → Int) (t : Nat) :
    cntTTI { g with allocated_rbs := a, allocation_by_user := bu,
                    allocation_by_tti := bt } t = cntTTI g t :=
  cntTTI_congr rfl rfl t

theorem cntUser_update (g : Grid) (a : Int) (bu : List (Nat × Int))
    (bt : Nat → Int) (u : Nat) :
    cntUser { g with allocated_rbs := a, allocation_by_user := bu,
                     allocation_by_tti := bt } u = cntUser g u :=
  cntUser_congr rfl rfl rfl u

theorem GridInv_ALLOCATE_RB (g : Grid) (tti : Nat) (sid : SlotId)
    (f ue : Nat) (h : GridInv g) :
    GridInv (ALLOCATE_RB g tti sid f ue).1 := by
  obtain ⟨hA, hT, hU⟩ := h
  by_cases hb : g.rb_per_slot ≤ f
  · simpa [ALLOCATE_RB, hb] using ⟨hA, hT, hU⟩
  · by_cases hc : tti < g.total_tti ∧ sid.sub = tti % 10 ∧ sid.slot < 2 ∧
        f < g.rb_per_slot
    · cases ho : g.owner tti sid.slot f with
      | some w => simpa [ALLOCATE_RB, hb, GET_RB, hc, ho] using ⟨hA, hT, hU⟩
      | none =>
        obtain ⟨htti, hsub, hs, hf⟩ := hc
        have hg' : (ALLOCATE_RB g tti sid f ue).1 =
            { setOwner g tti sid.slot f (some ue) with
                allocated_rbs := g.allocated_rbs + 1,
                allocation_by_user := aset g.allocation_by_user ue
                  ((alookup g.allocation_by_user ue).getD 0 + 1),
                allocation_by_tti := fun t =>
                  if t = tti then g.allocation_by_tti t + 1
                  else g.allocation_by_tti t } := by
          simp [ALLOCATE_RB, hb, GET_RB, htti, hsub, hs, hf, ho]
        rw [hg']
        refine ⟨?_, ?_, ?_⟩
        · show g.allocated_rbs + 1 = _
          rw [cntAll_update, cntAll_setOwner_assign g ue htti hs hf ho, hA]
          omega
        · intro t ht
          have ht' : t < g.total_tti := ht
          show (if t = tti then g.allocation_by_tti t + 1
              else g.allocation_by_tti t) = _
          rw [cntTTI_update, cntTTI_setOwner_assign g ue hs hf ho t]
          rcases eq_or_ne t tti with htt | htt
          · subst htt
            rw [if_pos rfl, if_pos rfl, hT t ht']
            omega
          · rw [if_neg htt, if_neg htt, hT t ht']
            omega
        · intro u
          show alookup (aset g.allocation_by_user ue
            ((alookup g.allocation_by_user ue).getD 0 + 1)) u = _
          rw [cntUser_update]
          by_cases hu : u = ue
          · subst hu
            rw [alookup_aset_self,
              cntUser_setOwner_assign_self g u htti hs hf ho]
            have hUu := hU u
            by_cases hz : cntUser g u = 0
            · simp [hz] at hUu; simp [hz, hUu]
            · simp [hz] at hUu
              rw [hUu]
              simp only [Nat.add_eq_zero, hz, false_and, if_false,
                Option.getD_some, Option.some.injEq]
              push_cast
              ring
          · rw [alookup_aset_ne _ _ _ _ (Ne.symm hu),
              cntUser_setOwner_assign_other g ue u hs ho hu]
            exact hU u
    · simpa [ALLOCATE_RB, hb, GET_RB, hc] using ⟨hA, hT, hU⟩

theorem GridInv_RELEASE_RB (g : Grid) (tti : Nat) (sid : SlotId)
    (f : Nat) (h : GridInv g) : GridInv (RELEASE_RB g tti sid f).1 := by
  obtain ⟨hA, hT, hU⟩ := h
  by_cases hc : tti < g.total_tti ∧ sid.sub = tti % 10 ∧ sid.slot < 2 ∧
      f < g.rb_per_slot
  · cases ho : g.owner tti sid.slot f with
    | none => simpa [RELEASE_RB, GET_RB, hc, ho] using ⟨hA, hT, hU⟩
    | some w =>
      obtain ⟨htti, hsub, hs, hf⟩ := hc
      have hcnt : 1 ≤ cntUser g w := cntUser_pos g htti hs hf ho
      have hUw : alookup g.allocation_by_user w = some (cntUser g w : Int) := by
        have := hU w
        rw [if_neg (by omega)] at this
        exact this
      have hg' : (RELEASE_RB g tti sid f).1 =
          { setOwner g tti sid.slot f none with
              allocated_rbs := g.allocated_rbs - 1,
              allocation_by_user :=
                if (alookup g.allocation_by_user w).getD 0 - 1 ≤ 0 then
                  aerase g.allocation_by_user w
                else aset g.allocation_by_user w
                  ((alookup g.allocation_by_user w).getD 0 - 1),
              allocation_by_tti := fun t =>
                if t = tti ∧ tti < g.total_tti then g.allocation_by_tti t - 1
                else g.allocation_by_tti t } := by
        simp [RELEASE_RB, GET_RB, htti, hsub, hs, hf, ho]
      rw [hg']
      refine ⟨?_, ?_, ?_⟩
      · show g.allocated_rbs - 1 = _
        rw [cntAll_update]
        have := cntAll_setOwner_release g htti hs hf ho
        omega
      · intro t ht
        have ht' : t < g.total_tti := ht
        show (if t = tti ∧ tti < g.total_tti then g.allocation_by_tti t - 1
            else g.allocation_by_tti t) = _
        rw [cntTTI_update]
        have hrel := cntTTI_setOwner_release g hs hf ho t
        rcases eq_or_ne t tti with htt | htt
        · subst htt
          rw [if_pos ⟨rfl, htti⟩, hT t ht']
          rw [if_pos rfl] at hrel
          omega
        · rw [if_neg (by tauto), hT t ht']
          rw [if_neg htt] at hrel
          omega
      · intro u
        show alookup (if (alookup g.allocation_by_user w).getD 0 - 1 ≤ 0 then
            aerase g.allocation_by_user w
          else aset g.allocation_by_user w
            ((alookup g.allocation_by_user w).getD 0 - 1)) u = _
        rw [cntUser_update, hUw]
        by_cases hu : u = w
        · subst hu
          have hself := cntUser_setOwner_release_self g htti hs hf ho
          by_cases h1 : cntUser g u = 1
          · rw [if_pos (by simp; omega)]
            rw [alookup_aerase_self, if_pos (by omega)]
          · have h2 : 2 ≤ cntUser g u := by omega
            rw [if_neg (by simp; omega), alookup_aset_self,
              if_neg (by omega)]
            simp
            omega
        · have hother := cntUser_setOwner_release_other g u hs ho hu
          by_cases hle : ((cntUser g w : Int)) - 1 ≤ 0
          · rw [if_pos (by simp; omega), alookup_aerase_ne _ _ _ (Ne.symm hu),
              hother]
            exact hU u
          · rw [if_neg (by simp; omega), alookup_aset_ne _ _ _ _
              (Ne.symm hu), hother]
            exact hU u
  · have hnone : GET_RB g tti sid f = none := by simp [GET_RB, hc]
    simpa [RELEASE_RB, hnone] using ⟨hA, hT, hU⟩

theorem gridInv_init (bw n num_frames : Nat) :
    GridInv (gridInit bw n num_frames) := by
  refine ⟨?_, ?_, ?_⟩
  · simp [gridInit, cntAll, cntTTI, cntSlot]
  · intro t _; simp [gridInit, cntTTI, cntSlot]
  · intro u; simp [gridInit, cntUser, cntUserSlot, alookup]

/-! ### C9: grid conservation and counter consistency -/

/-- C9: every mutation through `ALLOCATE_RB` or `RELEASE_RB` preserves the
counter-consistency invariant `GridInv` — `allocated_rbs`,
`allocation_by_tti[t]` and `allocation_by_user` equal the counts of RBs
currently assigned (in total, per TTI, and per UE), with a UE's entry
present in `allocation_by_user` exactly while its count is nonzero — and
after either mutation every TTI still satisfies the conservation law
`assigned + free = 2 · N_rb_per_slot`. -/
theorem C9_grid_counter_consistency (g : Grid) (tti : Nat) (sid : SlotId)
    (f ue : Nat) (h : GridInv g) :
    (GridInv (ALLOCATE_RB g tti sid f ue).1 ∧
     GridInv (RELEASE_RB g tti sid f).1) ∧
    (∀ t, cntTTI (ALLOCATE_RB g tti sid f ue).1 t +
          freeTTI (ALLOCATE_RB g tti sid f ue).1 t =
        2 * (ALLOCATE_RB g tti sid f ue).1.rb_per_slot ∧
      cntTTI (RELEASE_RB g tti sid f).1 t +
          freeTTI (RELEASE_RB g tti sid f).1 t =
        2 * (RELEASE_RB g tti sid f).1.rb_per_slot) :=
  ⟨⟨GridInv_ALLOCATE_RB g tti sid f ue h, GridInv_RELEASE_RB g tti sid f h⟩,
   fun t => ⟨cntTTI_add_freeTTI _ t, cntTTI_add_freeTTI _ t⟩⟩

/-- C9 witness: the freshly constructed 10 MHz grid satisfies `GridInv`, and
`C9_grid_counter_consistency` applies to an allocation on it. -/
theorem C9_grid_counter_consistency_witness :
    GridInv (ALLOCATE_RB (gridInit 100 50 1) 0 ⟨0, 0⟩ 3 7).1 ∧
    GridInv (RELEASE_RB (gridInit 100 50 1) 0 ⟨0, 0⟩ 3).1 :=
  (C9_grid_counter_consistency (gridInit 100 50 1) 0 ⟨0, 0⟩ 3 7
    (gridInv_init 10 50 1)).1

/-! ### C10: releasing an unassigned RB is a pure no-op -/

/-- C10: when the indices passed to `RELEASE_RB` do not name an RB of the
grid (`GET_RB` is `None`) or name a free RB, the call returns `False` and
the grid — every RB state and every aggregate counter — is exactly the
input grid, so a double release can never decrement a counter. -/
theorem C10_release_unassigned_noop (g : Grid) (tti : Nat) (sid : SlotId)
    (f : Nat)
    (h : GET_RB g tti sid f = none ∨ GET_RB g tti sid f = some none) :
    RELEASE_RB g tti sid f = (g, false) := by
  rcases h with h | h <;> simp [RELEASE_RB, h]

/-- C10 witness: releasing the untouched free RB `(0, slot 0, freq 2)` of a
fresh 10 MHz grid leaves the grid record untouched and returns `False`. -/
theorem C10_release_unassigned_noop_witness :
    RELEASE_RB (gridInit 100 50 1) 0 ⟨0, 0⟩ 2 = (gridInit 100 50 1, false) :=
  C10_release_unassigned_noop (gridInit 100 50 1) 0 ⟨0, 0⟩ 2
    (Or.inr (by decide))

/-! ### C2: `ALLOCATE_RB_GROUP` is not atomic -/

/-- A 5 MHz grid in which UE 99 owns the RB of slot 1, frequency 0 of TTI 0,
while slot 0 of the same frequency is free. -/
def halfPairGrid : Grid := (ALLOCATE_RB (gridInit 50 25 1) 0 ⟨0, 1⟩ 0 99).1

/-- C2, failing input.  `ALLOCATE_RB_GROUP(0, 0, 42)` on `halfPairGrid`
succeeds in slot 0 and fails in slot 1 (owned by UE 99); the source then
releases the slot that FAILED — UE 99's RB — instead of rolling back the
slot that succeeded.  The call returns `False`, yet leaves slot 0 assigned
to UE 42, has freed UE 99's RB in slot 1, and has erased UE 99 from
`allocation_by_user`: the grid is not left as it was, and an RB assigned to
a different UE was released. -/
theorem C2_allocate_rb_group_not_atomic :
    halfPairGrid.owner 0 1 0 = some 99 ∧
    halfPairGrid.owner 0 0 0 = none ∧
    (ALLOCATE_RB_GROUP halfPairGrid 0 0 42).2 = false ∧
    (ALLOCATE_RB_GROUP halfPairGrid 0 0 42).1.owner 0 0 0 = some 42 ∧
    (ALLOCATE_RB_GROUP halfPairGrid 0 0 42).1.owner 0 1 0 = none ∧
    alookup (ALLOCATE_RB_GROUP halfPairGrid 0 0 42).1.allocation_by_user 99 =
      none ∧
    alookup (ALLOCATE_RB_GROUP halfPairGrid 0 0 42).1.allocation_by_user 42 =
      some 1 ∧
    (ALLOCATE_RB_GROUP halfPairGrid 0 0 42).1.allocated_rbs = 1 := by
  decide

/-! ## The AMC table (`SCHEDULER.py`, `AdaptiveModulationAndCoding`) -/

/-- `AdaptiveModulationAndCoding.CQI_TO_MCS`: CQI → (modulation order,
code rate in permille). -/
def CQI_TO_MCS : Nat → Option (Nat × Nat)
  | 1 => some (2, 152)
  | 2 => some (2, 234)
  | 3 => some (2, 377)
  | 4 => some (2, 601)
  | 5 => some (4, 369)
  | 6 => some (4, 479)
  | 7 => some (4, 601)
  | 8 => some (6, 455)
  | 9 => some (6, 554)
  | 10 => some (6, 650)
  | 11 => some (6, 754)
  | 12 => some (6, 852)
  | 13 => some (6, 926)
  | 14 => some (6, 953)
  | 15 => some (6, 978)
  | _ => none

/-- `AdaptiveModulationAndCoding.GET_BITS_PER_RB(cqi)`; `none` models the
`ValueError` raised for a CQI outside the table.  `int(12 * 7 * M * R)`
truncates a nonnegative float towards zero, which over the exact permille
table is `84 * M * r / 1000` in `Nat` (no product of the table lies within
float rounding error of an integer). -/
def GET_BITS_PER_RB (cqi : Nat) : Option Nat :=
  (CQI_TO_MCS cqi).map (fun mr => 84 * mr.1 * mr.2 / 1000)

theorem GET_BITS_PER_RB_valid (cqi : Nat) (h1 : 1 ≤ cqi) (h15 : cqi ≤ 15) :
    ∃ b, GET_BITS_PER_RB cqi = some b ∧ 0 < b := by
  interval_cases cqi <;> exact ⟨_, rfl, by norm_num⟩

/-! ## Jain's fairness index (`ENVIRONMENT.py`, `test_scheduler_with_metrics`) -/

/-- The Jain fairness aggregation of `test_scheduler_with_metrics`:
`(np.sum(x))**2 / (len(x) * np.sum(x**2))` over a window of per-UE
throughputs.  `none` models the `nan` that numpy's `0/0` produces when the
denominator vanishes; the source has no special case for it. -/
def jainIndex (xs : List ℚ) : Option ℚ :=
  let d := (xs.length : ℚ) * (xs.map (fun x => x ^ 2)).sum
  if d = 0 then none else some (xs.sum ^ 2 / d)

theorem sq_sum_le_len_mul_sum_sq (xs : List ℚ) :
    xs.sum ^ 2 ≤ (xs.length : ℚ) * (xs.map (fun x => x ^ 2)).sum := by
  induction xs with
  | nil => simp
  | cons a l ih =>
    simp only [List.sum_cons, List.map_cons, List.length_cons]
    rcases eq_or_ne l [] with rfl | hl
    · simp
    · have hn : 0 < (l.length : ℚ) := by
        have := List.length_pos.mpr hl
        exact_mod_cast this
      push_cast
      nlinarith [sq_nonneg ((l.length : ℚ) * a - l.sum), ih, hn]

/-! ### C7: the all-zero convention of the Jain index -/

/-- C7, counterexample.  In a window in which every per-UE throughput is
zero (three UEs, as in the empty-system scenario), the computed Jain index
is the float `0/0 = nan` — modelled `none` — not the claimed `1`: the
source computes the bare formula with no all-zero convention. -/
theorem C7_jain_all_zero_counterexample :
    jainIndex [0, 0, 0] = none ∧ jainIndex [0, 0, 0] ≠ some 1 := by
  constructor
  · norm_num [jainIndex]
  · intro h
    rw [show jainIndex [0, 0, 0] = none from by norm_num [jainIndex]] at h
    exact Option.noConfusion h

/-- C7, amended.  The aggregation computes exactly
`J(x) = (Σxᵢ)² / (n · Σxᵢ²)`: whenever some throughput of the
(nonnegative) window is nonzero this is a well-defined value in `(0, 1]`,
but when every throughput is zero the denominator vanishes and the result
is the undefined `0/0` (numpy `nan`), not `1`. -/
theorem C7_jain_formula (xs : List ℚ) (h0 : ∀ x ∈ xs, 0 ≤ x) :
    ((∃ x ∈ xs, 0 < x) →
      ∃ j, jainIndex xs = some j ∧
        j = xs.sum ^ 2 / ((xs.length : ℚ) * (xs.map (fun x => x ^ 2)).sum) ∧
        0 < j ∧ j ≤ 1) ∧
    ((∀ x ∈ xs, x = 0) → jainIndex xs = none) := by
  constructor
  · rintro ⟨x, hx, hxpos⟩
    have hq : 0 < (xs.map (fun x => x ^ 2)).sum := by
      have hmem : x ^ 2 ∈ xs.map (fun x => x ^ 2) :=
        List.mem_map.mpr ⟨x, hx, rfl⟩
      have hle : x ^ 2 ≤ (xs.map (fun x => x ^ 2)).sum :=
        List.single_le_sum (fun y hy => by
          obtain ⟨z, _, rfl⟩ := List.mem_map.mp hy; positivity) _ hmem
      nlinarith
    have hn : 0 < (xs.length : ℚ) := by
      have : 0 < xs.length := List.length_pos.mpr (by rintro rfl; simp at hx)
      exact_mod_cast this
    have hd : 0 < (xs.length : ℚ) * (xs.map (fun x => x ^ 2)).sum := by
      positivity
    have hs : 0 < xs.sum := by
      have hle := List.single_le_sum h0 x hx
      linarith
    refine ⟨_, by rw [jainIndex, if_neg (by positivity)], rfl, ?_, ?_⟩
    · positivity
    · rw [div_le_one hd]
      exact sq_sum_le_len_mul_sum_sq xs
  · intro hz
    have hmap : xs.map (fun x => x ^ 2) = xs.map (fun _ => (0 : ℚ)) :=
      List.map_congr_left (fun x hx => by rw [hz x hx]; ring)
    have hqz : (xs.map (fun x => x ^ 2)).sum = 0 := by
      rw [hmap]; simp
    rw [jainIndex, if_pos (by rw [hqz]; ring)]

/-- C7 witness: `C7_jain_formula` applied to the nonzero window `[1, 2]`
and to the all-zero window `[0, 0, 0]`. -/
theorem C7_jain_formula_witness :
    (∃ j, jainIndex [(1 : ℚ), 2] = some j ∧
      j = ((1 : ℚ) + 2) ^ 2 / (2 * (1 + 4)) ∧ 0 < j ∧ j ≤ 1) ∧
    jainIndex [(0 : ℚ), 0, 0] = none := by
  constructor
  · obtain ⟨j, hj, hfor, hpos, hle⟩ :=
      (C7_jain_formula [(1 : ℚ), 2] (by norm_num)).1
        ⟨1, by norm_num, by norm_num⟩
    exact ⟨j, hj, by rw [hfor]; norm_num, hpos, hle⟩
  · exact (C7_jain_formula [(0 : ℚ), 0, 0] (by norm_num)).2 (by norm_num)

/-! ## The PF metric (`SCHEDULER.py`, `ProportionalFairScheduler`) -/

/-- The per-user body of `ProportionalFairScheduler.calculate_pf_metric`:
`instant_throughput = rb_per_slot * bits_per_rb * 2 * 1000`; the stored
average is overwritten with `1e-6` only when it is `<= 0`, and the metric
divides by the (possibly overwritten) stored average.  Returns
`(PF_metric, the average left in the UE)`; `none` models the `ValueError`
of `GET_BITS_PER_RB` on an invalid CQI. -/
def pfMetricStep (rb_per_slot : Nat) (cqi : Nat) (avg : ℚ) :
    Option (ℚ × ℚ) :=
  (GET_BITS_PER_RB cqi).map (fun bits =>
    let instant : ℚ := rb_per_slot * bits * 2 * 1000
    let avg' := if avg ≤ 0 then (1 / 1000000 : ℚ) else avg
    (instant / avg', avg'))

/-! ### C6: the PF averaging floor -/

/-- C6, counterexample.  For the stored average `1e-7` — strictly positive
but below `1e-6`, exactly what EMA decay produces — the computed metric at
50 RB/slot and CQI 15 (492 bits/RB) is `49 200 000 / 1e-7 = 4.92e14`, NOT
`instant / 1e-6 = 4.92e13`: the `1e-6` floor is applied only at
non-positive averages, so the claimed `max(avg, 1e-6)` denominator is
wrong on `(0, 1e-6)`. -/
theorem C6_pf_floor_counterexample :
    pfMetricStep 50 15 (1 / 10000000) =
      some (492000000000000, 1 / 10000000) ∧
    (492000000000000 : ℚ) ≠
      (50 * 492 * 2 * 1000 : ℚ) / (1 / 1000000) := by
  constructor
  · norm_num [pfMetricStep, GET_BITS_PER_RB, CQI_TO_MCS]
  · norm_num

/-- C6, amended.  For a valid CQI the metric computation never fails and
uses as denominator the stored average itself whenever it is positive —
including positive values below `1e-6` — and `1e-6` (which also overwrites
the stored average) only when the average is `≤ 0`; the denominator is
always positive, so `pf_metric` is finite and positive. -/
theorem C6_pf_metric_denominator (n cqi : Nat) (avg : ℚ)
    (h1 : 1 ≤ cqi) (h15 : cqi ≤ 15) (hn : 0 < n) :
    ∃ bits m avg', GET_BITS_PER_RB cqi = some bits ∧
      pfMetricStep n cqi avg = some (m, avg') ∧
      avg' = (if avg ≤ 0 then (1 / 1000000 : ℚ) else avg) ∧
      m = ((n : ℚ) * bits * 2 * 1000) / avg' ∧
      0 < avg' ∧ 0 < m := by
  obtain ⟨bits, hb, hbpos⟩ := GET_BITS_PER_RB_valid cqi h1 h15
  have havg' : (0 : ℚ) < (if avg ≤ 0 then (1 / 1000000 : ℚ) else avg) := by
    by_cases ha : avg ≤ 0
    · rw [if_pos ha]; norm_num
    · rw [if_neg ha]; exact lt_of_not_le ha
  refine ⟨bits, _, _, hb, ?_, rfl, rfl, havg', ?_⟩
  · rw [pfMetricStep, hb]; rfl
  · have hb' : (0 : ℚ) < bits := by exact_mod_cast hbpos
    have hn' : (0 : ℚ) < n := by exact_mod_cast hn
    positivity

/-- C6 witness: `C6_pf_metric_denominator` at 50 RB/slot, CQI 15 and a
positive average. -/
theorem C6_pf_metric_denominator_witness :
    ∃ bits m avg', GET_BITS_PER_RB 15 = some bits ∧
      pfMetricStep 50 15 2 = some (m, avg') ∧
      avg' = (if (2 : ℚ) ≤ 0 then (1 / 1000000 : ℚ) else 2) ∧
      m = ((50 : ℚ) * bits * 2 * 1000) / avg' ∧
      0 < avg' ∧ 0 < m :=
  C6_pf_metric_denominator 50 15 2 (by norm_num) (by norm_num) (by norm_num)

/-! ## The schedulers (`SCHEDULER.py`) -/

/-- Modelled from the spec: `RES_GRID_LTE.GET_RBG_SIZE()` — called by every
scheduler but absent from the repository snapshot — the TS 36.213 RBG size
per bandwidth: `{1.4→1, 3→2, 5→2, 10→3, 15→4, 20→4}` (tenths encoding). -/
def GET_RBG_SIZE (g : Grid) : Nat :=
  if g.bandwidth = 14 then 1
  else if g.bandwidth = 30 then 2
  else if g.bandwidth = 50 then 2
  else if g.bandwidth = 100 then 3
  else 4

/-- Modelled from the spec: `RES_GRID_LTE.GET_RBG_INDICES(rbg_idx)` —
absent from the snapshot — RBG `k` covers the frequency indices
`[k·S, min((k+1)·S, N_rb_per_slot))`. -/
def GET_RBG_INDICES (g : Grid) (k : Nat) : List Nat :=
  ((List.range g.rb_per_slot).drop (k * GET_RBG_SIZE g)).take (GET_RBG_SIZE g)

/-- Modelled from the spec: `RES_GRID_LTE.ALLOCATE_RBG(tti, rbg_idx, ue_id)`
— absent from the snapshot — atomic over all RBs of the RBG in BOTH slots
of the TTI: if the TTI is in range, the RBG nonempty and every covered RB
free in both slots, assign them all (through `ALLOCATE_RB`, keeping the
counters in step) and return true; otherwise change nothing and return
false (check-then-commit realises the spec's roll-back-on-sub-failure). -/
def ALLOCATE_RBG (g : Grid) (tti k ue : Nat) : Grid × Bool :=
  let idx := GET_RBG_INDICES g k
  if tti < g.total_tti ∧ idx ≠ [] ∧
      idx.all (fun f =>
        (g.owner tti 0 f).isNone && (g.owner tti 1 f).isNone) then
    (idx.foldl (fun gg f =>
      (ALLOCATE_RB (ALLOCATE_RB gg tti ⟨tti % 10, 0⟩ f ue).1
        tti ⟨tti % 10, 1⟩ f ue).1) g, true)
  else (g, false)

/-- Modelled from the spec: `RES_GRID_LTE.GENERATE_BITMAP(tti, ue_id)` —
absent from the snapshot — the RBG-level Resource Allocation type-0 bitmap:
entry `k` is true iff every RB of RBG `k` is assigned to `ue` in both
slots. -/
def GENERATE_BITMAP (g : Grid) (tti ue : Nat) : List Bool :=
  (List.range ((g.rb_per_slot + GET_RBG_SIZE g - 1) / GET_RBG_SIZE g)).map
    (fun k => (GET_RBG_INDICES g k).all
      (fun f => (g.owner tti 0 f == some ue) && (g.owner tti 1 f == some ue)))

/-- The per-UE mutable fields the schedulers touch
(`UE_MODULE.UserEquipment`): `current_dl_throughput` (always a whole number
of bits, so `Int`) and `average_throughput`.  The transient `PF_metric`
scratch attribute is omitted: it is written but read by no claim. -/
structure UEState where
  current_dl : Int
  average : ℚ
deriving Repr, DecidableEq

/-- Modelled from the spec: `UserEquipment.UPD_DL_THROUGHPUT(bits, 1)` —
called by every scheduler but absent from the snapshot — records the bits
delivered in this 1 ms TTI as `current_dl_throughput`
(spec §4.5.4: `ue.current_dl_throughput = bytes_sent · 8`). -/
def UPD_DL_THROUGHPUT (s : UEState) (bits : Int) : UEState :=
  { s with current_dl := bits }

/-- Pointwise update of the UE-object map. -/
def setUE (m : Nat → UEState) (i : Nat) (s : UEState) : Nat → UEState :=
  fun j => if j = i then s else m j

/-- One entry of the `users` list handed to `schedule`: `'UE_ID'` and
`'cqi'`.  The `'ue'` object is the state-map entry keyed by `UE_ID`;
`'buffer_size'` is ignored by these schedulers, which re-read the BS
buffer. -/
structure UserView where
  ue_id : Nat
  cqi : Nat
deriving Repr, DecidableEq

/-- The mutable state a scheduler acts on: the grid (`self.lte_grid`), the
BS-owned per-UE buffers (`self.lte_grid.bs.ue_buffers`, with `none` for an
unregistered UE, as `dict.get`) and the UE objects. -/
structure SchedWorld where
  grid : Grid
  bufs : Nat → Option Buffer
  ues : Nat → UEState

/-- `for user in users: user['ue'].current_dl_throughput = 0`. -/
def zeroCurrents (ues : Nat → UEState) (users : List UserView) :
    Nat → UEState :=
  users.foldl (fun m u => setUE m u.ue_id { m u.ue_id with current_dl := 0 })
    ues

/-- The `GET_UE_STATUS(tti)['per_ue'].get(ue_id, {}).get('size', 0)` read
used by the active-set filters: 0 when the queue is absent or empty, else
the `sizes[ue]` entry. -/
def bufStatusSize (b : Buffer) (u : Nat) : Int :=
  if b.queues u = [] then 0 else (alookup b.sizes u).getD 0

/-- The active-set filter shared by the three schedulers: keep the users
with a registered BS buffer, positive buffered bytes and CQI in `[1, 15]`,
pairing each with its `bs_buffer_size`. -/
def buildActive (bufs : Nat → Option Buffer) (users : List UserView) :
    List (UserView × Int) :=
  users.filterMap (fun u =>
    match bufs u.ue_id with
    | none => none
    | some b =>
      let sz := bufStatusSize b u.ue_id
      if 0 < sz ∧ 1 ≤ u.cqi ∧ u.cqi ≤ 15 then some (u, sz) else none)

/-- The per-TTI statistics snapshot built by
`AdaptiveModulationAndCoding.calculate_throughput`. -/
structure StatsSnapshot where
  total_allocated_rbs : Nat
  user_throughput : List (Nat × Int)
  user_effective_throughput : List (Nat × Int)
  user_max_throughput : List (Nat × Int)
  average_dl_throughput : ℚ
  total_effective_bits : Int

/-- The dict returned by `schedule`: the allocation map, the statistics
(`none` models the empty `{}` of the empty-active-set return) and the
per-UE RBG bitmaps. -/
structure ScheduleResult where
  allocation : List (Nat × List Nat)
  statistics : Option StatsSnapshot
  bitmap : List (Nat × List Bool)

/-- Accumulator of the `calculate_throughput` loop. -/
structure CalcState where
  ues : Nat → UEState
  total_allocated_rbs : Nat
  total_effective_bits : Int
  user_throughput : List (Nat × Int)
  user_effective_throughput : List (Nat × Int)
  user_max_throughput : List (Nat × Int)

/-- The per-user loop of `calculate_throughput`: users without RBs get
`UPD_DL_THROUGHPUT(0, 1)` and are skipped; the rest contribute
`effective = min(current_dl_throughput, rb_count * bits_per_rb)` to the
per-user dicts and the totals.  `none` models the `ValueError` of
`GET_BITS_PER_RB`. -/
def calcLoop (alloc : List (Nat × List Nat)) :
    List UserView → CalcState → Option CalcState
  | [], st => some st
  | u :: rest, st =>
    let rb_count := 2 * ((alookup alloc u.ue_id).getD []).length
    if rb_count = 0 then
      let ues' := setUE st.ues u.ue_id (UPD_DL_THROUGHPUT (st.ues u.ue_id) 0)
      calcLoop alloc rest { st with ues := ues' }
    else
      match GET_BITS_PER_RB u.cqi with
      | none => none
      | some bits =>
        let max_bits : Int := rb_count * bits
        let real_bits := (st.ues u.ue_id).current_dl
        let effective := min real_bits max_bits
        calcLoop alloc rest
          { st with
              total_allocated_rbs := st.total_allocated_rbs + rb_count,
              total_effective_bits := st.total_effective_bits + effective,
              user_throughput := aset st.user_throughput u.ue_id effective,
              user_effective_throughput :=
                aset st.user_effective_throughput u.ue_id effective,
              user_max_throughput :=
                aset st.user_max_throughput u.ue_id max_bits }

/-- `AdaptiveModulationAndCoding.calculate_throughput(allocation, users,
tti, bs)`: zero-initialised per-user dicts in users order, the loop above,
then `average_dl_throughput` over the users with positive throughput.
Returns the mutated UE objects and the snapshot. -/
def calculate_throughput (ues : Nat → UEState)
    (alloc : List (Nat × List Nat)) (users : List UserView) :
    Option ((Nat → UEState) × StatsSnapshot) :=
  let init : CalcState :=
    { ues := ues, total_allocated_rbs := 0, total_effective_bits := 0,
      user_throughput := users.map (fun u => (u.ue_id, 0)),
      user_effective_throughput := users.map (fun u => (u.ue_id, 0)),
      user_max_throughput := users.map (fun u => (u.ue_id, 0)) }
  (calcLoop alloc users init).map (fun st =>
    let nact := (users.filter
      (fun u => 0 < (alookup st.user_throughput u.ue_id).getD 0)).length
    (st.ues,
     { total_allocated_rbs := st.total_allocated_rbs,
       user_throughput := st.user_throughput,
       user_effective_throughput := st.user_effective_throughput,
       user_max_throughput := st.user_max_throughput,
       average_dl_throughput :=
         if nact = 0 then 0
         else (st.total_effective_bits : ℚ) / (nact : ℚ),
       total_effective_bits := st.total_effective_bits }))

/-- The post-allocation dequeue loop shared by `RoundRobinScheduler` and
`BestCQIScheduler`: for EVERY user of the input list (not only active
ones) with a registered buffer, compute `bits_per_rb` from the user's raw
CQI — `none` models the `ValueError` this raises on an invalid CQI — then
dequeue `max_bytes = allocated_rb * bits_per_rb // 8` bytes and record
`bytes · 8` as the UE's current DL throughput. -/
def dequeueLoop (alloc : List (Nat × List Nat)) (tti : Nat) :
    List UserView → (Nat → Option Buffer) → (Nat → UEState) →
    Option ((Nat → Option Buffer) × (Nat → UEState))
  | [], bufs, ues => some (bufs, ues)
  | u :: rest, bufs, ues =>
    match bufs u.ue_id with
    | none => dequeueLoop alloc tti rest bufs ues
    | some b =>
      let allocated_rb := 2 * ((alookup alloc u.ue_id).getD []).length
      match GET_BITS_PER_RB u.cqi with
      | none => none
      | some bits =>
        let max_bytes := allocated_rb * bits / 8
        let r := GET_PACKETS b u.ue_id max_bytes bits (tti : Int)
        dequeueLoop alloc tti rest
          (fun i => if i = u.ue_id then some r.1 else bufs i)
          (setUE ues u.ue_id
            (UPD_DL_THROUGHPUT (ues u.ue_id) ((r.2.2 : Int) * 8)))

/-! ### Round-Robin (`RoundRobinScheduler.schedule`) -/

/-- The starting cursor of the Round-Robin TTI: index 0 on the first run or
when the last served UE is no longer active, else the index after the last
served UE. -/
def rrStartIdx (last : Option Nat) (active : List (UserView × Int)) : Nat :=
  match last with
  | none => 0
  | some l =>
    match active.findIdx? (fun a => a.1.ue_id == l) with
    | none => 0
    | some i => (i + 1) % active.length

/-- The inner `while remaining_buffer[...] <= 0` scan: advance the cursor
cyclically past exhausted users; the source breaks after one full cycle, so
`active.length` steps of fuel reproduce it exactly. -/
def rrScan (active : List (UserView × Int)) (rem : List (Nat × Int)) :
    Nat → Nat → Nat
  | cur, 0 => cur
  | cur, fuel + 1 =>
    if (alookup rem ((active.getD cur ⟨⟨0, 0⟩, 0⟩).1.ue_id)).getD 0 ≤ 0 then
      rrScan active rem ((cur + 1) % active.length) fuel
    else cur

/-- Loop state of the RBG-allocation loops: the grid, the allocation map,
the per-UE remaining bits, the Round-Robin cursor and the last UE that
received an RBG in this TTI. -/
structure AllocState where
  grid : Grid
  allocation : List (Nat × List Nat)
  remaining : List (Nat × Int)
  cur : Nat
  last_allocated : Option Nat

/-- The RBG loop of `RoundRobinScheduler.schedule`: per RBG index, break
when every user is exhausted, scan to the next user with remaining bits,
and if that user still has data try `ALLOCATE_RBG`; on success extend the
allocation, debit `min(remaining, |rb_indices| * bits_per_rb * 2)` and
remember the user; the cursor advances in every iteration. -/
def rrAllocLoop (tti : Nat) (active : List (UserView × Int)) :
    List Nat → AllocState → Option AllocState
  | [], st => some st
  | rbg :: rest, st =>
    if st.remaining.all (fun kv => kv.2 ≤ 0) then some st
    else
      let cur1 := rrScan active st.remaining st.cur active.length
      let u := (active.getD cur1 ⟨⟨0, 0⟩, 0⟩).1
      if 0 < (alookup st.remaining u.ue_id).getD 0 then
        let r := ALLOCATE_RBG st.grid tti rbg u.ue_id
        if r.2 then
          let idx := GET_RBG_INDICES st.grid rbg
          match GET_BITS_PER_RB u.cqi with
          | none => none
          | some bits =>
            let cap : Int := (idx.length : Int) * bits * 2
            let remu := (alookup st.remaining u.ue_id).getD 0
            rrAllocLoop tti active rest
              { grid := r.1,
                allocation := aset st.allocation u.ue_id
                  (((alookup st.allocation u.ue_id).getD []) ++ idx),
                remaining := aset st.remaining u.ue_id (remu - min remu cap),
                cur := (cur1 + 1) % active.length,
                last_allocated := some u.ue_id }
        else
          rrAllocLoop tti active rest
            { st with grid := r.1, cur := (cur1 + 1) % active.length }
      else
        rrAllocLoop tti active rest
          { st with cur := (cur1 + 1) % active.length }

/-- `RoundRobinScheduler.schedule(tti, users)`: zero the currents, filter
the active set (empty → empty result without touching `last_served_ue_id`),
run the RBG loop from the rotated start index, update
`last_served_ue_id`, run the post-allocation dequeue over ALL users,
generate the active users' bitmaps and the statistics.  Returns
`none` when an uncaught `ValueError` aborts the call, else the new world,
the new `last_served_ue_id` and the result dict. -/
def RR_schedule (w : SchedWorld) (last : Option Nat) (tti : Nat)
    (users : List UserView) :
    Option (SchedWorld × Option Nat × ScheduleResult) :=
  let ues0 := zeroCurrents w.ues users
  let active := buildActive w.bufs users
  if active = [] then
    some ({ w with ues := ues0 }, last,
          { allocation := [], statistics := none, bitmap := [] })
  else
    let rbg_size := GET_RBG_SIZE w.grid
    let total_rbg := (w.grid.rb_per_slot + rbg_size - 1) / rbg_size
    let st0 : AllocState :=
      { grid := w.grid,
        allocation := active.map (fun a => (a.1.ue_id, [])),
        remaining := active.map (fun a => (a.1.ue_id, a.2 * 8)),
        cur := rrStartIdx last active,
        last_allocated := none }
    match rrAllocLoop tti active (List.range total_rbg) st0 with
    | none => none
    | some st =>
      let last' := match st.last_allocated with
        | some l => some l
        | none => last
      match dequeueLoop st.allocation tti users w.bufs ues0 with
      | none => none
      | some (bufs1, ues1) =>
        let bitmap := active.map
          (fun a => (a.1.ue_id, GENERATE_BITMAP st.grid tti a.1.ue_id))
        match calculate_throughput ues1 st.allocation users with
        | none => none
        | some (ues2, stats) =>
          some ({ grid := st.grid, bufs := bufs1, ues := ues2 }, last',
                { allocation := st.allocation, statistics := some stats,
                  bitmap := bitmap })

/-! ### Best-CQI (`BestCQIScheduler.schedule`) -/

/-- Head of `sort(key=..., reverse=True)`: Python's sort is stable also
with `reverse=True`, so index 0 of the sorted list is the FIRST element of
the input attaining the maximal key; `firstMaxBy` computes that element
directly (a later element replaces the candidate only when its key is
strictly greater). -/
def firstMaxBy {α β : Type} [LinearOrder β] (key : α → β) :
    List α → Option α
  | [] => none
  | a :: l =>
    match firstMaxBy key l with
    | none => some a
    | some b => if key b > key a then some b else some a

/-- `users_with_data = [u for u in active_users if remaining_buffer[u] > 0]`. -/
def usersWithData (active : List (UserView × Int)) (rem : List (Nat × Int)) :
    List (UserView × Int) :=
  active.filter (fun a => 0 < (alookup rem a.1.ue_id).getD 0)

/-- The RBG loop of `BestCQIScheduler.schedule`: per RBG index, break when
every user is exhausted (or no user has data), pick the user with maximal
CQI — ties resolved to the EARLIEST user in the active list by the stable
sort — and try `ALLOCATE_RBG`; on success extend its allocation and debit
its remaining bits. -/
def bcqiAllocLoop (tti : Nat) (active : List (UserView × Int)) :
    List Nat → AllocState → Option AllocState
  | [], st => some st
  | rbg :: rest, st =>
    if st.remaining.all (fun kv => kv.2 ≤ 0) then some st
    else
      match firstMaxBy (fun a => a.1.cqi) (usersWithData active st.remaining)
        with
      | none => some st
      | some best =>
        let u := best.1
        let r := ALLOCATE_RBG st.grid tti rbg u.ue_id
        if r.2 then
          let idx := GET_RBG_INDICES st.grid rbg
          match GET_BITS_PER_RB u.cqi with
          | none => none
          | some bits =>
            let cap : Int := (idx.length : Int) * bits * 2
            let remu := (alookup st.remaining u.ue_id).getD 0
            let alloc' := aset st.allocation u.ue_id
              (((alookup st.allocation u.ue_id).getD []) ++ idx)
            let rem' := aset st.remaining u.ue_id (remu - min remu cap)
            bcqiAllocLoop tti active rest
              { st with grid := r.1, allocation := alloc', remaining := rem' }
        else
          bcqiAllocLoop tti active rest { st with grid := r.1 }

/-- `BestCQIScheduler.schedule(tti, users)`: the same pipeline as
Round-Robin but stateless across TTIs and with the highest-CQI selection
per RBG. -/
def BestCQI_schedule (w : SchedWorld) (tti : Nat) (users : List UserView) :
    Option (SchedWorld × ScheduleResult) :=
  let ues0 := zeroCurrents w.ues users
  let active := buildActive w.bufs users
  if active = [] then
    some ({ w with ues := ues0 },
          { allocation := [], statistics := none, bitmap := [] })
  else
    let rbg_size := GET_RBG_SIZE w.grid
    let total_rbg := (w.grid.rb_per_slot + rbg_size - 1) / rbg_size
    let st0 : AllocState :=
      { grid := w.grid,
        allocation := active.map (fun a => (a.1.ue_id, [])),
        remaining := active.map (fun a => (a.1.ue_id, a.2 * 8)),
        cur := 0, last_allocated := none }
    match bcqiAllocLoop tti active (List.range total_rbg) st0 with
    | none => none
    | some st =>
      match dequeueLoop st.allocation tti users w.bufs ues0 with
      | none => none
      | some (bufs1, ues1) =>
        let bitmap := active.map
          (fun a => (a.1.ue_id, GENERATE_BITMAP st.grid tti a.1.ue_id))
        match calculate_throughput ues1 st.allocation users with
        | none => none
        | some (ues2, stats) =>
          some ({ grid := st.grid, bufs := bufs1, ues := ues2 },
                { allocation := st.allocation, statistics := some stats,
                  bitmap := bitmap })

/-! ### Proportional-Fair (`ProportionalFairScheduler.schedule`) -/

/-- `ProportionalFairScheduler.calculate_pf_metric(users)`: walk the active
users applying `pfMetricStep` (which may overwrite a non-positive stored
average with `1e-6`), collecting each user's `PF_metric`. -/
def calculate_pf_metric (n : Nat) :
    List (UserView × Int) → (Nat → UEState) →
    Option ((Nat → UEState) × List ((UserView × Int) × ℚ))
  | [], ues => some (ues, [])
  | a :: rest, ues =>
    match pfMetricStep n a.1.cqi ((ues a.1.ue_id).average) with
    | none => none
    | some (m, avg') =>
      let ues' := setUE ues a.1.ue_id { ues a.1.ue_id with average := avg' }
      match calculate_pf_metric n rest ues' with
      | none => none
      | some (ues'', ms) => some (ues'', (a, m) :: ms)

/-- The RBG loop of `ProportionalFairScheduler.schedule`: as Best-CQI, but
picking the maximal `PF_metric` (computed once before the loop), again
with ties resolved to the earliest listed user by the stable sort. -/
def pfAllocLoop (tti : Nat) (metered : List ((UserView × Int) × ℚ)) :
    List Nat → AllocState → Option AllocState
  | [], st => some st
  | rbg :: rest, st =>
    if st.remaining.all (fun kv => kv.2 ≤ 0) then some st
    else
      match firstMaxBy (fun am => am.2)
        (metered.filter
          (fun am => 0 < (alookup st.remaining am.1.1.ue_id).getD 0)) with
      | none => some st
      | some best =>
        let u := best.1.1
        let r := ALLOCATE_RBG st.grid tti rbg u.ue_id
        if r.2 then
          let idx := GET_RBG_INDICES st.grid rbg
          match GET_BITS_PER_RB u.cqi with
          | none => none
          | some bits =>
            let cap : Int := (idx.length : Int) * bits * 2
            let remu := (alookup st.remaining u.ue_id).getD 0
            let alloc' := aset st.allocation u.ue_id
              (((alookup st.allocation u.ue_id).getD []) ++ idx)
            let rem' := aset st.remaining u.ue_id (remu - min remu cap)
            pfAllocLoop tti metered rest
              { st with grid := r.1, allocation := alloc', remaining := rem' }
        else
          pfAllocLoop tti metered rest { st with grid := r.1 }

/-- The post-allocation dequeue loop of `ProportionalFairScheduler`: as
`dequeueLoop`, but every processed user additionally gets the EMA update
`average = (1 - 0.2) * average + 0.2 * current_dl_throughput` right after
its dequeue. -/
def pfDequeueLoop (alloc : List (Nat × List Nat)) (tti : Nat) :
    List UserView → (Nat → Option Buffer) → (Nat → UEState) →
    Option ((Nat → Option Buffer) × (Nat → UEState))
  | [], bufs, ues => some (bufs, ues)
  | u :: rest, bufs, ues =>
    match bufs u.ue_id with
    | none => pfDequeueLoop alloc tti rest bufs ues
    | some b =>
      let allocated_rb := 2 * ((alookup alloc u.ue_id).getD []).length
      match GET_BITS_PER_RB u.cqi with
      | none => none
      | some bits =>
        let max_bytes := allocated_rb * bits / 8
        let r := GET_PACKETS b u.ue_id max_bytes bits (tti : Int)
        let s1 := UPD_DL_THROUGHPUT (ues u.ue_id) ((r.2.2 : Int) * 8)
        let s2 := { s1 with average :=
          (1 - 1/5) * s1.average + (1/5) * (s1.current_dl : ℚ) }
        pfDequeueLoop alloc tti rest
          (fun i => if i = u.ue_id then some r.1 else bufs i)
          (setUE ues u.ue_id s2)

/-- `ProportionalFairScheduler.schedule(tti, users)`: zero the currents,
filter the active set — when it is EMPTY, return the empty result at once,
before any PF-metric or EMA computation — else compute the PF metrics,
run the RBG loop, dequeue every user with the EMA update, and build the
bitmaps and statistics. -/
def PF_schedule (w : SchedWorld) (tti : Nat) (users : List UserView) :
    Option (SchedWorld × ScheduleResult) :=
  let ues0 := zeroCurrents w.ues users
  let active := buildActive w.bufs users
  if active = [] then
    some ({ w with ues := ues0 },
          { allocation := [], statistics := none, bitmap := [] })
  else
    match calculate_pf_metric w.grid.rb_per_slot active ues0 with
    | none => none
    | some (ues1, metered) =>
      let rbg_size := GET_RBG_SIZE w.grid
      let total_rbg := (w.grid.rb_per_slot + rbg_size - 1) / rbg_size
      let st0 : AllocState :=
        { grid := w.grid,
          allocation := active.map (fun a => (a.1.ue_id, [])),
          remaining := active.map (fun a => (a.1.ue_id, a.2 * 8)),
          cur := 0, last_allocated := none }
      match pfAllocLoop tti metered (List.range total_rbg) st0 with
      | none => none
      | some st =>
        match pfDequeueLoop st.allocation tti users w.bufs ues1 with
        | none => none
        | some (bufs1, ues2) =>
          let bitmap := active.map
            (fun a => (a.1.ue_id, GENERATE_BITMAP st.grid tti a.1.ue_id))
          match calculate_throughput ues2 st.allocation users with
          | none => none
          | some (ues3, stats) =>
            some ({ grid := st.grid, bufs := bufs1, ues := ues3 },
                  { allocation := st.allocation, statistics := some stats,
                    bitmap := bitmap })

/-! ### C3: invalid CQI in the per-TTI pipeline -/

/-- A buffer whose queue for UE `u` holds one fresh packet of `sz` bytes,
with consistent byte accounting. -/
def onePacketBuf (u sz : Nat) : Buffer :=
  { Buffer.init 1048576 262144 with
      queues := fun i =>
        if i = u then [{ size := sz, ue_id := u, creation_time := 0 }]
        else [],
      sizes := [(u, sz)], total_size := sz }

/-- A 1.4 MHz cell with UE 1 registered holding 100 buffered bytes and
UE 2 registered with an empty buffer. -/
def invalidCqiWorld : SchedWorld :=
  { grid := gridInit 14 6 1,
    bufs := fun i =>
      if i = 1 then some (onePacketBuf 1 100)
      else if i = 2 then some (Buffer.init 1048576 262144)
      else none,
    ues := fun _ => ⟨0, 0⟩ }

/-- C3, failing input.  With UE 1 active (CQI 10, 100 buffered bytes) and
UE 2 registered but carrying the invalid CQI 0, the Round-Robin
`schedule(0, users)` does exclude UE 2 from the active set, yet the
post-allocation dequeue loop — which iterates over ALL users — calls
`GET_BITS_PER_RB(0)`, whose `ValueError` aborts the whole call (`none`);
the same input with the invalid-CQI UE removed completes normally, so the
abort is caused by that UE.  This refutes "no fatal error is raised for
that UE at any stage of the per-TTI pipeline". -/
theorem C3_invalid_cqi_aborts_schedule :
    buildActive invalidCqiWorld.bufs [⟨1, 10⟩, ⟨2, 0⟩] = [(⟨1, 10⟩, 100)] ∧
    RR_schedule invalidCqiWorld none 0 [⟨1, 10⟩, ⟨2, 0⟩] = none ∧
    (RR_schedule invalidCqiWorld none 0 [⟨1, 10⟩]).isSome = true := by
  refine ⟨by decide, by rfl, by rfl⟩

/-! ### C5: Best-CQI tie-breaking -/

/-- A 1.4 MHz cell with UEs 1 and 2 registered, each holding 10 000
buffered bytes. -/
def tieWorld : SchedWorld :=
  { grid := gridInit 14 6 1,
    bufs := fun i =>
      if i = 1 then some (onePacketBuf 1 10000)
      else if i = 2 then some (onePacketBuf 2 10000)
      else none,
    ues := fun _ => ⟨0, 0⟩ }

/-- C5, counterexample.  Both UEs have CQI 10 and remaining bits, so the
claim says every RBG — in particular RBG 0 — goes to UE 1, the lowest
UE ID.  For the input ordering `[UE 2, UE 1]` the Best-CQI scheduler
instead gives every RBG to UE 2 and none to UE 1: the stable sort breaks
ties by list position, not by UE ID. -/
theorem C5_tie_break_counterexample :
    (BestCQI_schedule tieWorld 0 [⟨2, 10⟩, ⟨1, 10⟩]).map
      (fun r => (alookup r.2.allocation 2, alookup r.2.allocation 1)) =
    some (some [0, 1, 2, 3, 4, 5], some []) := by rfl

/-! ### C4: PF EMA decay every TTI -/

/-- A 1.4 MHz cell with UE 1 registered with an EMPTY buffer,
`current_dl_throughput = 5` and `average_throughput = 100`. -/
def idleUeWorld : SchedWorld :=
  { grid := gridInit 14 6 1,
    bufs := fun i =>
      if i = 1 then some (Buffer.init 1048576 262144) else none,
    ues := fun i => if i = 1 then ⟨5, 100⟩ else ⟨0, 0⟩ }

/-- C4, counterexample.  UE 1's buffer is empty, so the active set of this
TTI is empty and `ProportionalFairScheduler.schedule` returns the empty
result BEFORE the EMA stage: UE 1's average stays `100` instead of
decaying to `(1 − 0.2)·100 + 0.2·0 = 80` — the claim's "including TTIs in
which the active set is empty" fails. -/
theorem C4_no_decay_on_empty_active_set :
    (PF_schedule idleUeWorld 0 [⟨1, 10⟩]).map
      (fun r => ((r.1.ues 1).average, (r.1.ues 1).current_dl)) =
      some (100, 0) ∧
    (100 : ℚ) ≠ (1 - 1/5) * 100 + (1/5) * ((0 : Int) : ℚ) := by
  refine ⟨by rfl, by norm_num⟩

theorem firstMaxBy_cons_ne_none {α β : Type} [LinearOrder β] (key : α → β)
    (b : α) (t : List α) : firstMaxBy key (b :: t) ≠ none := by
  rw [firstMaxBy]
  cases firstMaxBy key t with
  | none => simp
  | some c => by_cases h : key c > key b <;> simp [h]

theorem firstMaxBy_first_max {α β : Type} [LinearOrder β] (key : α → β)
    (l : List α) (hl : l ≠ []) :
    ∃ l₁ u l₂, firstMaxBy key l = some u ∧ l = l₁ ++ u :: l₂ ∧
      (∀ v ∈ l₁, key v < key u) ∧ (∀ v ∈ l, key v ≤ key u) := by
  induction l with
  | nil => cases hl rfl
  | cons a t ih =>
    cases hm : firstMaxBy key t with
    | none =>
      have ht : t = [] := by
        cases t with
        | nil => rfl
        | cons b t' => exact absurd hm (firstMaxBy_cons_ne_none key b t')
      subst ht
      exact ⟨[], a, [], by rw [firstMaxBy, hm], rfl, by simp, by simp⟩
    | some b =>
      have ht : t ≠ [] := by rintro rfl; rw [firstMaxBy] at hm; cases hm
      obtain ⟨l₁, u, l₂, hfm, heq, hlt, hle⟩ := ih ht
      have hbu : b = u := by
        rw [hfm] at hm
        exact (Option.some.inj hm).symm
      subst hbu
      by_cases hba : key b > key a
      · refine ⟨a :: l₁, b, l₂, ?_, by rw [heq]; rfl, ?_, ?_⟩
        · simp [firstMaxBy, hm, hba]
        · intro v hv
          rcases List.mem_cons.mp hv with rfl | hv'
          · exact hba
          · exact hlt v hv'
        · intro v hv
          rcases List.mem_cons.mp hv with rfl | hv'
          · exact le_of_lt hba
          · exact hle v hv'
      · refine ⟨[], a, t, ?_, rfl, by simp, ?_⟩
        · simp [firstMaxBy, hm, hba]
        · intro v hv
          rcases List.mem_cons.mp hv with rfl | hv'
          · exact le_rfl
          · exact (hle v hv').trans (not_lt.mp hba)

/-- C5, amended.  In the Best-CQI RBG loop each RBG is offered to the user
chosen by `firstMaxBy cqi` over `users_with_data` (the active users with
`remaining_bits > 0`), and that user is the one with maximal CQI whose
POSITION IN THE INPUT LIST is earliest among the maximal ones — Python's
stable sort keeps input order under `reverse=True` — rather than the one
with the lowest UE ID; it is an active user with remaining bits, but the
tie-break (and hence the allocation) depends on the ordering of the users
list. -/
theorem C5_bestcqi_offers_first_max (active : List (UserView × Int))
    (rem : List (Nat × Int)) (h : usersWithData active rem ≠ []) :
    ∃ l₁ u l₂,
      firstMaxBy (fun a => a.1.cqi) (usersWithData active rem) = some u ∧
      usersWithData active rem = l₁ ++ u :: l₂ ∧
      (∀ v ∈ l₁, v.1.cqi < u.1.cqi) ∧
      (∀ v ∈ usersWithData active rem, v.1.cqi ≤ u.1.cqi) ∧
      u ∈ active ∧ 0 < (alookup rem u.1.ue_id).getD 0 := by
  obtain ⟨l₁, u, l₂, hfm, heq, hlt, hle⟩ :=
    firstMaxBy_first_max (fun a => a.1.cqi) (usersWithData active rem) h
  have hu : u ∈ usersWithData active rem := by
    rw [heq]; exact List.mem_append_right _ (List.mem_cons_self u l₂)
  have := List.mem_filter.mp hu
  exact ⟨l₁, u, l₂, hfm, heq, hlt, hle, this.1, by simpa using this.2⟩

/-- C5 witness: with UE 2 listed before UE 1, both CQI 10 with remaining
bits, the selection of `C5_bestcqi_offers_first_max` lands on UE 2. -/
theorem C5_bestcqi_offers_first_max_witness :
    ∃ l₁ u l₂,
      firstMaxBy (fun a => a.1.cqi)
        (usersWithData [(⟨2, 10⟩, 10000), (⟨1, 10⟩, 10000)]
          ([(2, 80000), (1, 80000)] : List (Nat × Int))) = some u ∧
      usersWithData [(⟨2, 10⟩, 10000), (⟨1, 10⟩, 10000)]
          ([(2, 80000), (1, 80000)] : List (Nat × Int)) = l₁ ++ u :: l₂ ∧
      (∀ v ∈ l₁, v.1.cqi < u.1.cqi) ∧
      (∀ v ∈ usersWithData [(⟨2, 10⟩, 10000), (⟨1, 10⟩, 10000)]
          ([(2, 80000), (1, 80000)] : List (Nat × Int)), v.1.cqi ≤ u.1.cqi) ∧
      u ∈ ([(⟨2, 10⟩, 10000), (⟨1, 10⟩, 10000)] : List (UserView × Int)) ∧
      0 < (alookup ([(2, 80000), (1, 80000)] : List (Nat × Int))
        u.1.ue_id).getD 0 :=
  C5_bestcqi_offers_first_max [(⟨2, 10⟩, 10000), (⟨1, 10⟩, 10000)]
    [(2, 80000), (1, 80000)] (by decide)

theorem zeroCurrents_average (users : List UserView) :
    ∀ (ues : Nat → UEState) (i : Nat),
      (zeroCurrents ues users i).average = (ues i).average := by
  induction users with
  | nil => intro ues i; rfl
  | cons u rest ih =>
    intro ues i
    show (zeroCurrents
      (setUE ues u.ue_id { ues u.ue_id with current_dl := 0 }) rest i).average
      = (ues i).average
    rw [ih]
    by_cases h : i = u.ue_id <;> simp [setUE, h]

theorem buildActive_mem (bufs : Nat → Option Buffer) (users : List UserView) :
    ∀ a ∈ buildActive bufs users,
      a.1 ∈ users ∧ (1 ≤ a.1.cqi ∧ a.1.cqi ≤ 15) ∧ (bufs a.1.ue_id).isSome := by
  intro a ha
  obtain ⟨u, hu, hf⟩ := List.mem_filterMap.mp ha
  cases hb : bufs u.ue_id with
  | none => simp [hb] at hf
  | some b =>
    rw [hb] at hf
    simp only at hf
    split at hf
    · rename_i hcond
      cases hf
      exact ⟨hu, ⟨hcond.2.1, hcond.2.2⟩, by rw [hb]; rfl⟩
    · cases hf

theorem GET_PACKETS_zero_budget (b : Buffer) (u bits : Nat) (now : Int) :
    (GET_PACKETS b u 0 bits now).2.2 = 0 := by
  simp only [GET_PACKETS]
  generalize ttlKeep now (b.queues u) = q
  cases q <;> simp [extractLoop]

theorem firstMaxBy_mem {α β : Type} [LinearOrder β] (key : α → β) :
    ∀ (l : List α) (b : α), firstMaxBy key l = some b → b ∈ l := by
  intro l
  induction l with
  | nil => intro b h; cases h
  | cons a t ih =>
    intro b h
    cases hm : firstMaxBy key t with
    | none =>
      simp [firstMaxBy, hm] at h
      subst h
      exact List.mem_cons_self a t
    | some c =>
      by_cases hc : key c > key a
      · simp [firstMaxBy, hm, hc] at h
        subst h
        exact List.mem_cons_of_mem a (ih c hm)
      · simp [firstMaxBy, hm, hc] at h
        subst h
        exact List.mem_cons_self a t

theorem calculate_pf_metric_spec (n : Nat) :
    ∀ (l : List (UserView × Int)) (ues : Nat → UEState),
      (∀ a ∈ l, 1 ≤ a.1.cqi ∧ a.1.cqi ≤ 15) →
      ∃ r, calculate_pf_metric n l ues = some r ∧
        (∀ i, 0 < (ues i).average → r.1 i = ues i) ∧
        (∀ am ∈ r.2, am.1 ∈ l) := by
  intro l
  induction l with
  | nil =>
    intro ues _
    exact ⟨(ues, []), rfl, fun i _ => rfl, by simp⟩
  | cons a rest ih =>
    intro ues h
    obtain ⟨bits, hb, _⟩ := GET_BITS_PER_RB_valid a.1.cqi
      (h a (List.mem_cons_self a rest)).1 (h a (List.mem_cons_self a rest)).2
    have hstep : pfMetricStep n a.1.cqi ((ues a.1.ue_id).average) =
        some (((n : ℚ) * bits * 2 * 1000) /
            (if (ues a.1.ue_id).average ≤ 0 then (1 / 1000000 : ℚ)
             else (ues a.1.ue_id).average),
          (if (ues a.1.ue_id).average ≤ 0 then (1 / 1000000 : ℚ)
           else (ues a.1.ue_id).average)) := by
      simp [pfMetricStep, hb]
    obtain ⟨⟨r1, r2⟩, hr, hpres, hmem⟩ := ih
      (setUE ues a.1.ue_id
        { ues a.1.ue_id with average :=
            (if (ues a.1.ue_id).average ≤ 0 then (1 / 1000000 : ℚ)
             else (ues a.1.ue_id).average) })
      (fun x hx => h x (List.mem_cons_of_mem a hx))
    refine ⟨(r1, (⟨a, ((n : ℚ) * bits * 2 * 1000) /
        (if (ues a.1.ue_id).average ≤ 0 then (1 / 1000000 : ℚ)
         else (ues a.1.ue_id).average)⟩) :: r2), ?_, ?_, ?_⟩
    · simp only [calculate_pf_metric, hstep, hr]
    · intro i hi
      have hsame : setUE ues a.1.ue_id
          { ues a.1.ue_id with average :=
              (if (ues a.1.ue_id).average ≤ 0 then (1 / 1000000 : ℚ)
               else (ues a.1.ue_id).average) } i = ues i := by
        by_cases hia : i = a.1.ue_id
        · subst hia
          rw [setUE, if_pos rfl, if_neg (not_le.mpr hi)]
        · rw [setUE, if_neg hia]
      rw [← hsame]
      exact hpres i (by rw [hsame]; exact hi)
    · intro am ham
      rcases List.mem_cons.mp ham with rfl | ham'
      · exact List.mem_cons_self a rest
      · exact List.mem_cons_of_mem a (hmem am ham')

theorem pfAllocLoop_some (tti : Nat) (metered : List ((UserView × Int) × ℚ))
    (hv : ∀ am ∈ metered, 1 ≤ am.1.1.cqi ∧ am.1.1.cqi ≤ 15) :
    ∀ (rbgs : List Nat) (st : AllocState),
      ∃ st', pfAllocLoop tti metered rbgs st = some st' := by
  intro rbgs
  induction rbgs with
  | nil => intro st; exact ⟨st, rfl⟩
  | cons rbg rest ih =>
    intro st
    rw [pfAllocLoop]
    split
    · exact ⟨st, rfl⟩
    · cases hm : firstMaxBy (fun am => am.2)
        (metered.filter
          (fun am => 0 < (alookup st.remaining am.1.1.ue_id).getD 0)) with
      | none => exact ⟨st, rfl⟩
      | some best =>
        have hbm : best ∈ metered :=
          (List.mem_filter.mp (firstMaxBy_mem _ _ best hm)).1
        obtain ⟨bits, hb, _⟩ := GET_BITS_PER_RB_valid best.1.1.cqi
          (hv best hbm).1 (hv best hbm).2
        by_cases hok : (ALLOCATE_RBG st.grid tti rbg best.1.1.ue_id).2 = true
        · simp only [hok, if_true, hb]
          exact ih _
        · simp only [Bool.not_eq_true] at hok
          simp only [hok, Bool.false_eq_true, if_false]
          exact ih _

theorem pfDequeueLoop_cons_some (alloc : List (Nat × List Nat)) (tti : Nat)
    (u' : UserView) (rest : List UserView) (bufs : Nat → Option Buffer)
    (ues : Nat → UEState) (b : Buffer) (bits : Nat)
    (hb : bufs u'.ue_id = some b)
    (hgb : GET_BITS_PER_RB u'.cqi = some bits) :
    pfDequeueLoop alloc tti (u' :: rest) bufs ues =
      pfDequeueLoop alloc tti rest
        (fun i => if i = u'.ue_id then
            some (GET_PACKETS b u'.ue_id
              (2 * ((alookup alloc u'.ue_id).getD []).length * bits / 8)
              bits (tti : Int)).1
          else bufs i)
        (setUE ues u'.ue_id
          { current_dl := ((GET_PACKETS b u'.ue_id
              (2 * ((alookup alloc u'.ue_id).getD []).length * bits / 8)
              bits (tti : Int)).2.2 : Int) * 8,
            average := (1 - 1/5) * (ues u'.ue_id).average +
              (1/5) * ((((GET_PACKETS b u'.ue_id
                (2 * ((alookup alloc u'.ue_id).getD []).length * bits / 8)
                bits (tti : Int)).2.2 : Int) * 8 : Int) : ℚ) }) := by
  simp only [pfDequeueLoop, hb, hgb, UPD_DL_THROUGHPUT]

theorem pfDequeueLoop_spec (alloc : List (Nat × List Nat)) (tti : Nat) :
    ∀ (us : List UserView) (bufs : Nat → Option Buffer) (ues : Nat → UEState),
      (∀ v ∈ us, 1 ≤ v.cqi ∧ v.cqi ≤ 15) →
      (us.map (fun v => v.ue_id)).Nodup →
      ∃ p, pfDequeueLoop alloc tti us bufs ues = some p ∧
        (∀ i, i ∉ us.map (fun v => v.ue_id) → p.2 i = ues i) ∧
        (∀ u ∈ us, (bufs u.ue_id).isSome →
          (p.2 u.ue_id).average =
            (1 - 1/5) * ((ues u.ue_id).average) +
              (1/5) * (((p.2 u.ue_id).current_dl : Int) : ℚ) ∧
          (((alookup alloc u.ue_id).getD []).length = 0 →
            (p.2 u.ue_id).current_dl = 0)) := by
  intro us
  induction us with
  | nil =>
    intro bufs ues _ _
    exact ⟨(bufs, ues), rfl, fun i _ => rfl,
      fun u hu => absurd hu (List.not_mem_nil u)⟩
  | cons u' rest ih =>
    intro bufs ues hv hnd
    have hv' : ∀ v ∈ rest, 1 ≤ v.cqi ∧ v.cqi ≤ 15 :=
      fun v h => hv v (List.mem_cons_of_mem _ h)
    have hnd' : (rest.map (fun v => v.ue_id)).Nodup :=
      (List.nodup_cons.mp (by simpa using hnd)).2
    have hnotin : u'.ue_id ∉ rest.map (fun v => v.ue_id) :=
      (List.nodup_cons.mp (by simpa using hnd)).1
    cases hb : bufs u'.ue_id with
    | none =>
      obtain ⟨p, hp, huntouched, hema⟩ := ih bufs ues hv' hnd'
      refine ⟨p, ?_, ?_, ?_⟩
      · rw [pfDequeueLoop, hb]; exact hp
      · intro i hi
        refine huntouched i (fun hmem => hi ?_)
        simp only [List.map_cons, List.mem_cons]
        exact Or.inr hmem
      · intro v hv0 hbs
        rcases List.mem_cons.mp hv0 with rfl | hv1
        · rw [hb] at hbs; cases hbs
        · exact hema v hv1 hbs
    | some b =>
      obtain ⟨bits, hgb, _⟩ := GET_BITS_PER_RB_valid u'.cqi
        (hv u' (List.mem_cons_self u' rest)).1
        (hv u' (List.mem_cons_self u' rest)).2
      rw [pfDequeueLoop_cons_some alloc tti u' rest bufs ues b bits hb hgb]
      obtain ⟨p, hp, huntouched, hema⟩ := ih
        (fun i => if i = u'.ue_id then
            some (GET_PACKETS b u'.ue_id
              (2 * ((alookup alloc u'.ue_id).getD []).length * bits / 8)
              bits (tti : Int)).1
          else bufs i)
        (setUE ues u'.ue_id
          { current_dl := ((GET_PACKETS b u'.ue_id
              (2 * ((alookup alloc u'.ue_id).getD []).length * bits / 8)
              bits (tti : Int)).2.2 : Int) * 8,
            average := (1 - 1/5) * (ues u'.ue_id).average +
              (1/5) * ((((GET_PACKETS b u'.ue_id
                (2 * ((alookup alloc u'.ue_id).getD []).length * bits / 8)
                bits (tti : Int)).2.2 : Int) * 8 : Int) : ℚ) })
        hv' hnd'
      refine ⟨p, hp, ?_, ?_⟩
      · intro i hi
        have hir : i ∉ rest.map (fun v => v.ue_id) := by
          intro hmem
          exact hi (by simp only [List.map_cons, List.mem_cons]; exact Or.inr hmem)
        have hiu : i ≠ u'.ue_id := by
          intro hiu
          exact hi (by simp only [List.map_cons, List.mem_cons]; exact Or.inl hiu)
        rw [huntouched i hir, setUE, if_neg hiu]
      · intro v hv0 hbs
        rcases List.mem_cons.mp hv0 with rfl | hv1
        · have hvp := huntouched v.ue_id hnotin
          rw [hvp, setUE, if_pos rfl]
          constructor
          · rfl
          · intro hlen
            simp only [hlen, Nat.mul_zero, Nat.zero_mul, Nat.zero_div,
              GET_PACKETS_zero_budget]
            rfl
        · have hvne : v.ue_id ≠ u'.ue_id := by
            intro he
            exact hnotin (he ▸ List.mem_map.mpr ⟨v, hv1, rfl⟩)
          have hbs' : ((fun i => if i = u'.ue_id then
              some (GET_PACKETS b u'.ue_id
                (2 * ((alookup alloc u'.ue_id).getD []).length * bits / 8)
                bits (tti : Int)).1
              else bufs i) v.ue_id).isSome := by
            simp only [if_neg hvne]
            exact hbs
          have h2 := hema v hv1 hbs'
          rwa [setUE, if_neg hvne] at h2

theorem calcLoop_spec (alloc : List (Nat × List Nat)) :
    ∀ (us : List UserView) (st : CalcState),
      (∀ v ∈ us, 1 ≤ v.cqi ∧ v.cqi ≤ 15) →
      (us.map (fun v => v.ue_id)).Nodup →
      ∃ r, calcLoop alloc us st = some r ∧
        (∀ i, (r.ues i).average = (st.ues i).average) ∧
        (∀ i, i ∉ us.map (fun v => v.ue_id) → r.ues i = st.ues i) ∧
        (∀ u ∈ us,
          (r.ues u.ue_id).current_dl =
            (if ((alookup alloc u.ue_id).getD []).length = 0 then 0
             else (st.ues u.ue_id).current_dl)) := by
  intro us
  induction us with
  | nil =>
    intro st _ _
    exact ⟨st, rfl, fun i => rfl, fun i _ => rfl,
      fun u hu => absurd hu (List.not_mem_nil u)⟩
  | cons u' rest ih =>
    intro st hv hnd
    have hv' : ∀ v ∈ rest, 1 ≤ v.cqi ∧ v.cqi ≤ 15 :=
      fun v h => hv v (List.mem_cons_of_mem _ h)
    have hnd' : (rest.map (fun v => v.ue_id)).Nodup :=
      (List.nodup_cons.mp (by simpa using hnd)).2
    have hnotin : u'.ue_id ∉ rest.map (fun v => v.ue_id) :=
      (List.nodup_cons.mp (by simpa using hnd)).1
    by_cases hlen : ((alookup alloc u'.ue_id).getD []).length = 0
    · have hrb : 2 * ((alookup alloc u'.ue_id).getD []).length = 0 := by omega
      obtain ⟨r, hr, havg, hun, hcur⟩ := ih
        { st with
            ues := (setUE st.ues u'.ue_id (UPD_DL_THROUGHPUT (st.ues u'.ue_id) 0)) }
        hv' hnd'
      refine ⟨r, ?_, ?_, ?_, ?_⟩
      · rw [calcLoop, if_pos hrb]; exact hr
      · intro i
        rw [havg i]
        by_cases hiu : i = u'.ue_id <;>
          simp [setUE, hiu, UPD_DL_THROUGHPUT]
      · intro i hi
        have hir : i ∉ rest.map (fun v => v.ue_id) := by
          intro hmem
          exact hi (by simp only [List.map_cons, List.mem_cons]; exact Or.inr hmem)
        have hiu : i ≠ u'.ue_id := by
          intro hiu
          exact hi (by simp only [List.map_cons, List.mem_cons]; exact Or.inl hiu)
        rw [hun i hir]
        simp [setUE, hiu]
      · intro v hv0
        rcases List.mem_cons.mp hv0 with rfl | hv1
        · rw [hun v.ue_id hnotin]
          simp [setUE, UPD_DL_THROUGHPUT, hlen]
        · have hvne : v.ue_id ≠ u'.ue_id := by
            intro he
            exact hnotin (he ▸ List.mem_map.mpr ⟨v, hv1, rfl⟩)
          rw [hcur v hv1]
          simp [setUE, hvne]
    · have hrb : ¬ (2 * ((alookup alloc u'.ue_id).getD []).length = 0) := by
        omega
      obtain ⟨bits, hgb, _⟩ := GET_BITS_PER_RB_valid u'.cqi
        (hv u' (List.mem_cons_self u' rest)).1
        (hv u' (List.mem_cons_self u' rest)).2
      obtain ⟨r, hr, havg, hun, hcur⟩ := ih
        { st with
            total_allocated_rbs := st.total_allocated_rbs +
              2 * ((alookup alloc u'.ue_id).getD []).length,
            total_effective_bits := st.total_effective_bits +
              min ((st.ues u'.ue_id).current_dl)
                ((2 * ((alookup alloc u'.ue_id).getD []).length : Int) * bits),
            user_throughput := aset st.user_throughput u'.ue_id
              (min ((st.ues u'.ue_id).current_dl)
                ((2 * ((alookup alloc u'.ue_id).getD []).length : Int) * bits)),
            user_effective_throughput :=
              aset st.user_effective_throughput u'.ue_id
                (min ((st.ues u'.ue_id).current_dl)
                  ((2 * ((alookup alloc u'.ue_id).getD []).length : Int) * bits)),
            user_max_throughput := aset st.user_max_throughput u'.ue_id
              ((2 * ((alookup alloc u'.ue_id).getD []).length : Int) * bits) }
        hv' hnd'
      refine ⟨r, ?_, havg, ?_, ?_⟩
      · rw [calcLoop, if_neg hrb, hgb]
        convert hr using 2
      · intro i hi
        have hir : i ∉ rest.map (fun v => v.ue_id) := by
          intro hmem
          exact hi (by simp only [List.map_cons, List.mem_cons]; exact Or.inr hmem)
        rw [hun i hir]
      · intro v hv0
        rcases List.mem_cons.mp hv0 with rfl | hv1
        · rw [hun v.ue_id hnotin]
          simp [hlen]
        · rw [hcur v hv1]

theorem calculate_throughput_spec (ues : Nat → UEState)
    (alloc : List (Nat × List Nat)) (us : List UserView)
    (hv : ∀ v ∈ us, 1 ≤ v.cqi ∧ v.cqi ≤ 15)
    (hnd : (us.map (fun v => v.ue_id)).Nodup) :
    ∃ q, calculate_throughput ues alloc us = some q ∧
      (∀ i, (q.1 i).average = (ues i).average) ∧
      (∀ u ∈ us,
        (q.1 u.ue_id).current_dl =
          (if ((alookup alloc u.ue_id).getD []).length = 0 then 0
           else (ues u.ue_id).current_dl)) := by
  obtain ⟨r, hr, havg, _, hcur⟩ := calcLoop_spec alloc us
    { ues := ues, total_allocated_rbs := 0, total_effective_bits := 0,
      user_throughput := us.map (fun u => (u.ue_id, 0)),
      user_effective_throughput := us.map (fun u => (u.ue_id, 0)),
      user_max_throughput := us.map (fun u => (u.ue_id, 0)) } hv hnd
  refine ⟨(r.ues, ?_), ?_, havg, hcur⟩
  · exact
      { total_allocated_rbs := r.total_allocated_rbs,
        user_throughput := r.user_throughput,
        user_effective_throughput := r.user_effective_throughput,
        user_max_throughput := r.user_max_throughput,
        average_dl_throughput :=
          if (us.filter
            (fun u => 0 < (alookup r.user_throughput u.ue_id).getD 0)).length
            = 0 then 0
          else (r.total_effective_bits : ℚ) /
            ((us.filter (fun u =>
              0 < (alookup r.user_throughput u.ue_id).getD 0)).length : ℚ),
        total_effective_bits := r.total_effective_bits }
  · rw [calculate_throughput, hr]
    rfl

/-- C4, amended.  The EMA update `avg_new = (1 − 0.2)·avg_old + 0.2·current`
is applied by the Proportional-Fair scheduler to every UE of the users list
— served or not — ONLY in TTIs whose active set is nonempty: under a
nonempty active set (and a well-formed call: valid CQIs so that the dequeue
stage does not raise, pairwise-distinct UE ids), every listed UE with a
registered buffer whose stored average was positive ends the call with
exactly `avg = 0.8·avg_before + 0.2·current_dl_throughput`.  When the
active set is empty the scheduler returns before the EMA stage and no
average changes (see the counterexample); a UE whose stored average was
`≤ 0` is first floored to `1e-6` by the metric stage. -/
theorem C4_pf_ema_on_nonempty_active (w : SchedWorld) (tti : Nat)
    (users : List UserView) (u : UserView)
    (hact : buildActive w.bufs users ≠ [])
    (hv : ∀ v ∈ users, 1 ≤ v.cqi ∧ v.cqi ≤ 15)
    (hnd : (users.map (fun v => v.ue_id)).Nodup)
    (hu : u ∈ users)
    (hbuf : (w.bufs u.ue_id).isSome)
    (havg : 0 < (w.ues u.ue_id).average) :
    ∃ r, PF_schedule w tti users = some r ∧
      (r.1.ues u.ue_id).average =
        (1 - 1/5) * (w.ues u.ue_id).average +
          (1/5) * (((r.1.ues u.ue_id).current_dl : Int) : ℚ) := by
  have hactv : ∀ a ∈ buildActive w.bufs users,
      1 ≤ a.1.cqi ∧ a.1.cqi ≤ 15 :=
    fun a ha => (buildActive_mem w.bufs users a ha).2.1
  obtain ⟨⟨ues1, metered⟩, hr1, hpres1, hmem1⟩ :=
    calculate_pf_metric_spec w.grid.rb_per_slot (buildActive w.bufs users)
      (zeroCurrents w.ues users) hactv
  have hmv : ∀ am ∈ metered, 1 ≤ am.1.1.cqi ∧ am.1.1.cqi ≤ 15 :=
    fun am ham => hactv am.1 (hmem1 am ham)
  obtain ⟨st, hst⟩ := pfAllocLoop_some tti metered hmv
    (List.range ((w.grid.rb_per_slot + GET_RBG_SIZE w.grid - 1) /
      GET_RBG_SIZE w.grid))
    { grid := w.grid,
      allocation := (buildActive w.bufs users).map (fun a => (a.1.ue_id, [])),
      remaining := (buildActive w.bufs users).map
        (fun a => (a.1.ue_id, a.2 * 8)),
      cur := 0, last_allocated := none }
  obtain ⟨⟨bufs1, ues2⟩, hp, hunt, hema⟩ :=
    pfDequeueLoop_spec st.allocation tti users w.bufs ues1 hv hnd
  obtain ⟨⟨ues3, stats⟩, hq, hqavg, hqcur⟩ :=
    calculate_throughput_spec ues2 st.allocation users hv hnd
  refine ⟨({ grid := st.grid, bufs := bufs1, ues := ues3 },
           { allocation := st.allocation, statistics := some stats,
             bitmap := (buildActive w.bufs users).map
               (fun a => (a.1.ue_id, GENERATE_BITMAP st.grid tti a.1.ue_id))
           }), ?_, ?_⟩
  · simp only [PF_schedule, hact, if_false, hr1, hst, hp, hq]
  · show (ues3 u.ue_id).average = _
    have h0 : (zeroCurrents w.ues users u.ue_id).average =
        (w.ues u.ue_id).average := zeroCurrents_average users w.ues u.ue_id
    have h1 : ues1 u.ue_id = zeroCurrents w.ues users u.ue_id :=
      hpres1 u.ue_id (by rw [h0]; exact havg)
    obtain ⟨hav2, hcur2⟩ := hema u hu hbuf
    have h3 : (ues3 u.ue_id).average = (ues2 u.ue_id).average :=
      hqavg u.ue_id
    have h4 := hqcur u hu
    by_cases hlen : ((alookup st.allocation u.ue_id).getD []).length = 0
    · have hc0 : (ues2 u.ue_id).current_dl = 0 := hcur2 hlen
      rw [if_pos hlen] at h4
      rw [h3, hav2, h1, h0, h4, hc0]
    · rw [if_neg hlen] at h4
      rw [h3, hav2, h1, h0, h4]

/-- A 1.4 MHz cell with UE 1 registered, 100 buffered bytes and a positive
average throughput. -/
def pfDataWorld : SchedWorld :=
  { grid := gridInit 14 6 1,
    bufs := fun i => if i = 1 then some (onePacketBuf 1 100) else none,
    ues := fun i => if i = 1 then ⟨5, 100⟩ else ⟨0, 0⟩ }

/-- C4 witness: `C4_pf_ema_on_nonempty_active` applied to a concrete TTI
with a nonempty active set. -/
theorem C4_pf_ema_on_nonempty_active_witness :
    ∃ r, PF_schedule pfDataWorld 0 [⟨1, 10⟩] = some r ∧
      (r.1.ues 1).average =
        (1 - 1/5) * (pfDataWorld.ues 1).average +
          (1/5) * (((r.1.ues 1).current_dl : Int) : ℚ) :=
  C4_pf_ema_on_nonempty_active pfDataWorld 0 [⟨1, 10⟩] ⟨1, 10⟩
    (by decide) (by decide) (by decide) (by decide) (by rfl)
    (by show (0 : ℚ) < 100; norm_num)
